import Mathlib

/-!
Verification development for the `go-xsd-validator` repository: a shallow
embedding in Lean 4 of the XSD validation engine (`pkg/validate.go`,
`pkg/types.go`, `pkg/xsd.go` and companion files), together with theorems
settling the specification claims about it.

Modelling conventions:
* Go machine integers are modelled as `Int` with explicit range checks where
  the Go standard library performs them (`strconv.ParseInt` bit sizes).
* Go `float64` values produced by `strconv.ParseFloat` are modelled as exact
  rationals (`ℚ`); binary rounding is abstracted away.  Every theorem below
  evaluates floats only at small decimal values where the abstraction is
  exact.  `Inf`/`NaN` spellings and overflowing literals are treated as
  parse failures (a documented approximation; no claim exercises them).
* Go's `regexp` package is modelled by a small executable regular-expression
  engine covering the syntax the repository's schemas use (literals, classes,
  groups, alternation, `?`/`*`/`+`/counted repetition, `\d`/`\w` escapes and
  top-level `^`/`$` anchors).  `regexp.MatchString pat s` is modelled by
  `goRegexpMatchString`, which reports whether ANY substring of `s` matches,
  exactly like the Go function.  Patterns outside the modelled subset are
  treated as compile errors.
* Go maps are modelled as association lists; where the validator iterates
  over a map, the list order stands for one possible (nondeterministic)
  iteration order.
* The recursive validation functions are total in Lean via an explicit fuel
  parameter: `Res.fuelOut` marks exhaustion of the recursion budget and
  `Res.crash` marks a Go nil-pointer dereference (panic).
-/

namespace GoXsd

/-! ## Modelled Go standard library: integer parsing -/

/-- Take a maximal run of decimal digits from the front of a list. -/
def spanDigits (cs : List Char) : List Char × List Char :=
  (cs.takeWhile Char.isDigit, cs.dropWhile Char.isDigit)

/-- Value of a digit list (most significant first). -/
def digitsToNat (cs : List Char) : Nat :=
  cs.foldl (fun acc c => acc * 10 + (c.toNat - '0'.toNat)) 0

/-- Syntactic parse of an optionally-signed decimal integer with no range
check: `none` when the string is not of the shape `[+-]?[0-9]+`.  This is the
common core of the `strconv.ParseInt`/`strconv.Atoi` model. -/
def parseIntSyntax (s : String) : Option Int :=
  let cs := s.toList
  let (sign, rest) : Int × List Char :=
    match cs with
    | '+' :: r => (1, r)
    | '-' :: r => (-1, r)
    | _ => (1, cs)
  if rest = [] then none
  else if rest.all Char.isDigit then some (sign * (digitsToNat rest : Int))
  else none

/-- Model of Go `strconv.ParseInt(s, 10, bits)` succeeding: `none` on a
syntax error or an out-of-range value (Go reports `ErrRange` there, so the
`err == nil` branches of the source treat it as failure). -/
def goParseInt (bits : Nat) (s : String) : Option Int :=
  match parseIntSyntax s with
  | none => none
  | some v =>
      if -(2 ^ (bits - 1) : Int) ≤ v ∧ v ≤ (2 ^ (bits - 1) : Int) - 1 then some v else none

/-- Model of Go `strconv.Atoi` succeeding (64-bit platform). -/
def goAtoi (s : String) : Option Int := goParseInt 64 s

/-- The value Go's `strconv.Atoi` RETURNS when its error is ignored
(`n, _ := strconv.Atoi(s)`): the parsed value, `0` on a syntax error, and
the clamped extremum on a range error. -/
def goAtoiValue (s : String) : Int :=
  match parseIntSyntax s with
  | none => 0
  | some v =>
      if v < -(2 ^ 63 : Int) then -(2 ^ 63 : Int)
      else if v > (2 ^ 63 : Int) - 1 then (2 ^ 63 : Int) - 1
      else v

/-! ## Modelled Go standard library: float parsing and `%v` formatting

`float64` values are modelled by exact decimals `mant * 10^exp`.  Binary
rounding is abstracted away; every theorem below evaluates floats only at
small decimal values where the abstraction is exact. -/

/-- Exact decimal number `mant * 10 ^ exp`, the model of a `float64` value
produced by `strconv.ParseFloat`. -/
structure Dec where
  mant : Int
  exp : Int
deriving Repr, DecidableEq

/-- Align two decimals on a common exponent and return the two scaled
mantissas, so that value comparison becomes integer comparison. -/
def Dec.aligned (a b : Dec) : Int × Int :=
  let e := min a.exp b.exp
  (a.mant * (10 : Int) ^ (a.exp - e).toNat, b.mant * (10 : Int) ^ (b.exp - e).toNat)

/-- Value order on decimals (`<` on the represented rationals). -/
def Dec.blt (a b : Dec) : Bool :=
  let (x, y) := a.aligned b
  x < y

/-- Value order on decimals (`≤` on the represented rationals). -/
def Dec.ble (a b : Dec) : Bool :=
  let (x, y) := a.aligned b
  x ≤ y

/-- Value equality on decimals (`=` on the represented rationals). -/
def Dec.beq (a b : Dec) : Bool :=
  let (x, y) := a.aligned b
  x = y

/-- Model of Go `strconv.ParseFloat(s, _)` succeeding, as an exact decimal:
optional sign, decimal digits with optional fraction, optional decimal
exponent.  `Inf`/`NaN` spellings, hexadecimal floats, digit-group
underscores and the overflow-to-infinity behaviour are outside the model
and yield `none`. -/
def goParseFloat (s : String) : Option Dec :=
  let cs := s.toList
  let (sign, rest0) : Int × List Char :=
    match cs with
    | '+' :: r => (1, r)
    | '-' :: r => (-1, r)
    | _ => (1, cs)
  let (ip, rest1) := spanDigits rest0
  let (fp, rest2) : List Char × List Char :=
    match rest1 with
    | '.' :: r => spanDigits r
    | _ => ([], rest1)
  if ip = [] ∧ fp = [] then none
  else
    let mant : Int := sign * (digitsToNat (ip ++ fp) : Int)
    let fracLen : Int := fp.length
    match rest2 with
    | [] => some ⟨mant, -fracLen⟩
    | e :: r =>
        if e = 'e' ∨ e = 'E' then
          let (esign, er) : Int × List Char :=
            match r with
            | '+' :: rr => (1, rr)
            | '-' :: rr => (-1, rr)
            | _ => (1, r)
          if er ≠ [] ∧ er.all Char.isDigit then
            some ⟨mant, esign * (digitsToNat er : Int) - fracLen⟩
          else none
        else none

/-- The value Go's `strconv.ParseFloat` returns when its error is ignored
(`num, _ := strconv.ParseFloat(v, 64)`): the parsed value, `0` otherwise. -/
def goParseFloatValue (s : String) : Dec :=
  (goParseFloat s).getD ⟨0, 0⟩

/-- Drop factors of ten from the mantissa into the exponent (fuelled). -/
def Dec.normLoop : Nat → Int → Int → Dec
  | 0, m, e => ⟨m, e⟩
  | n + 1, m, e => if m % 10 = 0 ∧ e < 0 then Dec.normLoop n (m / 10) (e + 1) else ⟨m, e⟩

/-- Pad-print `n` to exactly `k` digits. -/
def padDigits (n : Nat) (k : Nat) : String :=
  String.mk ((Nat.toDigits 10 (n + 10 ^ k)).drop 1)

/-- Model of Go `fmt.Sprintf("%v", f)` for a `float64`, on the exact-decimal
abstraction: integers print without a fractional part (`1` not `1.0`),
other values print positionally without trailing zeros (`0.5`, `2.25`).
Go's switch to exponent notation at extreme magnitudes is not modelled (no
theorem evaluates such values). -/
def goFormatFloat (d : Dec) : String :=
  if d.mant = 0 then "0"
  else
    let d := Dec.normLoop 40 d.mant d.exp
    if 0 ≤ d.exp then toString (d.mant * (10 : Int) ^ d.exp.toNat)
    else
      let k := (-d.exp).toNat
      let a := d.mant.natAbs
      let sgn := if d.mant < 0 then "-" else ""
      sgn ++ toString (a / 10 ^ k) ++ "." ++ padDigits (a % 10 ^ k) k

example : goFormatFloat ⟨1, 0⟩ = "1" := by decide
example : goFormatFloat ⟨0, 0⟩ = "0" := by decide
example : goFormatFloat ⟨25, -1⟩ = "2.5" := by decide
example : goFormatFloat ⟨-5, -1⟩ = "-0.5" := by decide
example : goParseFloat "0.25" = some ⟨25, -2⟩ := by decide
example : goParseFloat "-3" = some ⟨-3, 0⟩ := by decide
example : goParseFloat "" = none := by decide
example : (goParseFloatValue "0").blt (goParseFloatValue "1") = true := by decide
example : goAtoi "-1" = some (-1) := by decide
example : goAtoi "abc" = none := by decide
example : goAtoi "unbounded" = none := by decide

/-! ## Modelled Go standard library: regular expressions

A small executable engine covering the pattern subset the repository uses.
`reFullMatch r cs` decides whether the WHOLE character list matches `r`;
`goRegexMatch` implements the search semantics of Go's `Regexp.MatchString`
(some substring matches, between optional top-level `^`/`$` anchors). -/

/-- Regular-expression abstract syntax: empty word, single character,
character class (ranges, possibly negated), concatenation, alternation,
Kleene star. -/
inductive RE where
  | emp
  | char (c : Char)
  | cls (neg : Bool) (items : List (Char × Char))
  | seq (a b : RE)
  | alt (a b : RE)
  | star (a : RE)
deriving Repr, DecidableEq

/-- Does character `c` satisfy the (possibly negated) class? -/
def clsMatch (neg : Bool) (items : List (Char × Char)) (c : Char) : Bool :=
  let inCls := items.any fun p => p.1 ≤ c ∧ c ≤ p.2
  if neg then !inCls else inCls

/-- Whole-word match of a regular expression, fuelled so that the recursion
is structural (hence kernel-evaluable).  Each recursive call either descends
into a structurally smaller expression or consumes at least one subject
character at a Kleene star, so the recursion depth is bounded by
`(sizeOf r + 2) * (length + 2)`; `reFullMatch` supplies that fuel. -/
def reFullMatchF : Nat → RE → List Char → Bool
  | 0, _, _ => false
  | fuel + 1, r, s =>
    match r, s with
    | .emp, s => s.isEmpty
    | .char c, s => s = [c]
    | .cls n it, s => match s with | [c] => clsMatch n it c | _ => false
    | .seq a b, s =>
        (List.range (s.length + 1)).any fun i =>
          reFullMatchF fuel a (s.take i) && reFullMatchF fuel b (s.drop i)
    | .alt a b, s => reFullMatchF fuel a s || reFullMatchF fuel b s
    | .star _, [] => true
    | .star a, c :: cs =>
        (List.range (cs.length + 1)).any fun i =>
          reFullMatchF fuel a (c :: cs.take i) && reFullMatchF fuel (.star a) (cs.drop i)

/-- Syntactic size of a regular expression (fuel computation). -/
def RE.size : RE → Nat
  | .emp => 1
  | .char _ => 1
  | .cls _ _ => 1
  | .seq a b => a.size + b.size + 1
  | .alt a b => a.size + b.size + 1
  | .star a => a.size + 1

/-- Whole-word match of a regular expression. -/
def reFullMatch (r : RE) (s : List Char) : Bool :=
  reFullMatchF ((r.size + 2) * (s.length + 2)) r s

/-- A compiled Go pattern: the body plus the two top-level anchors. -/
structure GoRegex where
  anchorStart : Bool
  anchorEnd : Bool
  re : RE
deriving Repr, DecidableEq

/-- Search semantics of Go `Regexp.MatchString`: some substring (a window
`[i, i+j)`) matches the pattern body, with anchors pinning the window to the
respective end of the subject. -/
def goRegexMatch (g : GoRegex) (s : List Char) : Bool :=
  let n := s.length
  (List.range (n + 1)).any fun i =>
    (List.range (n - i + 1)).any fun j =>
      (!g.anchorStart || i == 0) && (!g.anchorEnd || i + j == n) &&
        reFullMatch g.re ((s.drop i).take j)

/-- `n`-fold repetition. -/
def repeatRE (r : RE) : Nat → RE
  | 0 => .emp
  | n + 1 => .seq r (repeatRE r n)

/-- At most `n` repetitions. -/
def atMostRE (r : RE) : Nat → RE
  | 0 => .emp
  | n + 1 => .alt .emp (.seq r (atMostRE r n))

mutual

/-- Parse an alternation (`a|b|c`). -/
def parseAltRE : Nat → List Char → Option (RE × List Char)
  | 0, _ => none
  | fuel + 1, cs =>
    match parseConcatRE fuel cs with
    | none => none
    | some (r, rest) =>
      match rest with
      | '|' :: rest2 =>
        match parseAltRE fuel rest2 with
        | none => none
        | some (r2, rest3) => some (.alt r r2, rest3)
      | _ => some (r, rest)

/-- Parse a (possibly empty) concatenation of repeated atoms. -/
def parseConcatRE : Nat → List Char → Option (RE × List Char)
  | 0, _ => none
  | fuel + 1, cs =>
    match cs with
    | [] => some (.emp, [])
    | ')' :: _ => some (.emp, cs)
    | '|' :: _ => some (.emp, cs)
    | _ =>
      match parseRepeatRE fuel cs with
      | none => none
      | some (r, rest) =>
        match parseConcatRE fuel rest with
        | none => none
        | some (r2, rest2) => some (.seq r r2, rest2)

/-- Parse an atom with an optional `*`/`+`/`?`/`{n}`/`{n,}`/`{n,m}`
quantifier. -/
def parseRepeatRE : Nat → List Char → Option (RE × List Char)
  | 0, _ => none
  | fuel + 1, cs =>
    match parseAtomRE fuel cs with
    | none => none
    | some (r, rest) =>
      match rest with
      | '*' :: rest2 => some (.star r, rest2)
      | '+' :: rest2 => some (.seq r (.star r), rest2)
      | '?' :: rest2 => some (.alt .emp r, rest2)
      | '{' :: rest2 =>
        let (d1, rest3) := spanDigits rest2
        if d1 = [] then none
        else
          let n := digitsToNat d1
          match rest3 with
          | '}' :: rest4 => some (repeatRE r n, rest4)
          | ',' :: '}' :: rest4 => some (.seq (repeatRE r n) (.star r), rest4)
          | ',' :: rest4 =>
            let (d2, rest5) := spanDigits rest4
            if d2 = [] then none
            else
              let m := digitsToNat d2
              match rest5 with
              | '}' :: rest6 =>
                  if n ≤ m then some (.seq (repeatRE r n) (atMostRE r (m - n)), rest6)
                  else none
              | _ => none
          | _ => none
      | _ => some (r, rest)

/-- Parse one atom: group, class, escape, `.`, or literal character. -/
def parseAtomRE : Nat → List Char → Option (RE × List Char)
  | 0, _ => none
  | fuel + 1, cs =>
    match cs with
    | '(' :: rest =>
      match parseAltRE fuel rest with
      | none => none
      | some (r, rest2) =>
        match rest2 with
        | ')' :: rest3 => some (r, rest3)
        | _ => none
    | '[' :: rest => parseClassRE fuel rest
    | '\\' :: c :: rest =>
      if c = 'd' then some (.cls false [('0', '9')], rest)
      else if c = 'w' then
        some (.cls false [('a', 'z'), ('A', 'Z'), ('0', '9'), ('_', '_')], rest)
      else if c ∈ ['\\', '.', '-', '{', '}', '(', ')', '[', ']',
                   '+', '*', '?', '|', '^', '$', '/'] then
        some (.char c, rest)
      else none
    | '.' :: rest => some (.cls true [], rest)
    | c :: rest =>
      if c ∈ ['*', '+', '?', '(', ')', '[', ']', '{', '}', '\\', '|', '^', '$'] then none
      else some (.char c, rest)
    | [] => none

/-- Parse a character class body (after the opening `[`). -/
def parseClassRE : Nat → List Char → Option (RE × List Char)
  | 0, _ => none
  | fuel + 1, cs =>
    let (neg, cs1) : Bool × List Char :=
      match cs with
      | '^' :: r => (true, r)
      | _ => (false, cs)
    match parseClassItemsRE fuel cs1 with
    | none => none
    | some (items, rest) => some (.cls neg items, rest)

/-- Parse class items (ranges and literals) up to the closing `]`. -/
def parseClassItemsRE : Nat → List Char → Option (List (Char × Char) × List Char)
  | 0, _ => none
  | fuel + 1, cs =>
    match cs with
    | ']' :: rest => some ([], rest)
    | '\\' :: _ => none
    | c :: '-' :: ']' :: rest => some ([(c, c), ('-', '-')], rest)
    | c :: '-' :: d :: rest =>
      (match parseClassItemsRE fuel rest with
       | some (items, r2) => some ((c, d) :: items, r2)
       | none => none)
    | c :: rest =>
      (match parseClassItemsRE fuel rest with
       | some (items, r2) => some ((c, c) :: items, r2)
       | none => none)
    | [] => none

end

/-- Compile a Go pattern string within the modelled subset: strip top-level
`^`/`$` anchors, then parse the body.  `none` models a pattern Go's
`regexp.Compile` rejects — or one outside the modelled subset. -/
def parseGoRegex (pattern : String) : Option GoRegex :=
  let cs := pattern.toList
  let (aStart, cs1) : Bool × List Char :=
    match cs with
    | '^' :: r => (true, r)
    | _ => (false, cs)
  let (aEnd, cs2) : Bool × List Char :=
    match cs1.reverse with
    | '$' :: ('\\' :: _) => (false, cs1)
    | '$' :: r => (true, r.reverse)
    | _ => (false, cs1)
  match parseAltRE ((cs2.length + 2) * 8) cs2 with
  | some (r, []) => some ⟨aStart, aEnd, r⟩
  | _ => none

/-- Model of Go `regexp.MatchString(pattern, s)`: `none` when the pattern
does not compile (the call returns an error), otherwise whether any
substring of `s` matches. -/
def goRegexpMatchString (pattern s : String) : Option Bool :=
  match parseGoRegex pattern with
  | none => none
  | some g => some (goRegexMatch g s.toList)

/-- Left-to-right, non-overlapping replacement on character lists (fuelled
structurally; each step consumes at least one subject character for the
non-empty patterns used here). -/
def replaceAllChars (pat rep : List Char) : Nat → List Char → List Char
  | 0, s => s
  | fuel + 1, s =>
    if pat = [] then s
    else if pat.isPrefixOf s then rep ++ replaceAllChars pat rep fuel (s.drop pat.length)
    else
      match s with
      | [] => []
      | c :: cs => c :: replaceAllChars pat rep fuel cs

/-- Model of Go `strings.ReplaceAll` (for the non-empty patterns the source
uses). -/
def goReplaceAll (s pat rep : String) : String :=
  String.mk (replaceAllChars pat.toList rep.toList (s.length + 1) s.toList)

/-- `convertXSDPatternToGoRegex` from `pkg/validate.go`: translate the XSD
pattern subset to Go syntax and anchor the whole pattern at both ends. -/
def convertXSDPatternToGoRegex (pattern : String) : String :=
  let pattern := goReplaceAll pattern "\\i\\c*" "[a-zA-Z][a-zA-Z0-9_]*"
  let pattern := goReplaceAll pattern "\\c" "[a-zA-Z0-9_]"
  let pattern := goReplaceAll pattern "\\d" "[0-9]"
  let pattern := goReplaceAll pattern "\\w" "[a-zA-Z0-9_]"
  "^" ++ pattern ++ "$"

/-- The pattern cache from `pkg/xsd.go`: compiled patterns keyed by the
original facet string. -/
structure PatternCache where
  patterns : List (String × GoRegex)
deriving Repr, DecidableEq

/-- `NewPatternCache` from `pkg/xsd.go`. -/
def NewPatternCache : PatternCache := ⟨[]⟩

/-- `PatternCache.GetPattern` from `pkg/xsd.go`: translate (via
`convertXSDPatternToGoRegex`) and compile on first request, cache by the
original facet string.  The error payload stands for the message of the
`regexp.Compile` error. -/
def PatternCache.GetPattern (pc : PatternCache) (pattern : String) :
    Except String (GoRegex × PatternCache) :=
  match pc.patterns.find? (fun p => p.1 == pattern) with
  | some p => .ok (p.2, pc)
  | none =>
    let goPattern := convertXSDPatternToGoRegex pattern
    match parseGoRegex goPattern with
    | none => .error goPattern
    | some compiled => .ok (compiled, ⟨(pattern, compiled) :: pc.patterns⟩)

/-- Spec-described pattern check (refinement contrast, not from the source):
the specification says a facet pattern is compiled VIA THE PATTERN CACHE
(hence translated and anchored at both ends by `convertXSDPatternToGoRegex`)
and the value must match it as a full string.  `none` models the compile
failure the spec says is reported. -/
def specFullStringPatternMatch (pattern value : String) : Option Bool :=
  match NewPatternCache.GetPattern pattern with
  | .error _ => none
  | .ok (g, _) => some (goRegexMatch g value.toList)

example : convertXSDPatternToGoRegex "\\d{2}" = "^[0-9]{2}$" := by decide
example : goRegexpMatchString "ab" "xaby" = some true := by decide
example : goRegexpMatchString "^ab$" "xaby" = some false := by decide
example : goRegexpMatchString "^ab$" "ab" = some true := by decide
example : goRegexpMatchString "[A-Z]{2}-[0-9]{3}" "AB-123" = some true := by decide
example : goRegexpMatchString "[A-Z]{2}-[0-9]{3}" "123-AB" = some false := by decide
example : goRegexpMatchString "\\i" "x" = none := by decide

/-! ## Schema data model (`pkg/xsd.go`)

Direct translation of the Go structs.  Optional pointer fields become
`Option`; slices become `List`.  The binder `Typ` stands for the Go field
`Type` (a keyword in Lean) and `ListF` for the Go field `List`. -/

/-- `XSDValue`: a facet carrying a `value` attribute. -/
structure XSDValue where
  Value : String
deriving Repr, DecidableEq

/-- `XSDRestriction`. -/
structure XSDRestriction where
  Base : String
  Pattern : List XSDValue := []
  Enumeration : List XSDValue := []
  Length : XSDValue := ⟨""⟩
  MinLength : XSDValue := ⟨""⟩
  MaxLength : XSDValue := ⟨""⟩
  MinInclusive : XSDValue := ⟨""⟩
  MaxInclusive : XSDValue := ⟨""⟩
  MinExclusive : XSDValue := ⟨""⟩
  MaxExclusive : XSDValue := ⟨""⟩
  WhiteSpace : String := ""
  TotalDigits : String := ""
  FractionDigits : String := ""
deriving Repr, DecidableEq

/-- `XSDList`. -/
structure XSDList where
  ItemType : String
deriving Repr, DecidableEq

mutual

/-- `XSDSimpleType`. -/
inductive XSDSimpleType where
  | mk (Name : String) (Restriction : Option XSDRestriction)
       (Union : Option XSDUnion) (ListF : Option XSDList)

/-- `XSDUnion`. -/
inductive XSDUnion where
  | mk (MemberTypes : List String) (SimpleTypes : List XSDSimpleType)

/-- `XSDAttribute`. -/
inductive XSDAttribute where
  | mk (Name Typ Use Default Fixed : String) (SimpleType : Option XSDSimpleType)

/-- `XSDComplexType`. -/
inductive XSDComplexType where
  | mk (Name : String) (Sequence : Option XSDSequence)
       (Choice : Option XSDChoice) (Attributes : List XSDAttribute)

/-- `XSDSequence`. -/
inductive XSDSequence where
  | mk (Elements : List XSDElement)

/-- `XSDChoice`. -/
inductive XSDChoice where
  | mk (MinOccurs MaxOccurs : String) (Choice : Option XSDChoice)
       (Elements : List XSDElement)

/-- `XSDElement`. -/
inductive XSDElement where
  | mk (Name Namespace Typ Ref MinOccurs MaxOccurs : String)
       (ComplexType : Option XSDComplexType) (SimpleType : Option XSDSimpleType)

end

def XSDSimpleType.Name : XSDSimpleType → String
  | .mk n _ _ _ => n

def XSDSimpleType.Restriction : XSDSimpleType → Option XSDRestriction
  | .mk _ r _ _ => r

def XSDSimpleType.Union : XSDSimpleType → Option XSDUnion
  | .mk _ _ u _ => u

def XSDSimpleType.ListF : XSDSimpleType → Option XSDList
  | .mk _ _ _ l => l

def XSDAttribute.Name : XSDAttribute → String
  | .mk n _ _ _ _ _ => n

def XSDAttribute.Typ : XSDAttribute → String
  | .mk _ t _ _ _ _ => t

def XSDAttribute.Use : XSDAttribute → String
  | .mk _ _ u _ _ _ => u

def XSDAttribute.SimpleType : XSDAttribute → Option XSDSimpleType
  | .mk _ _ _ _ _ st => st

def XSDComplexType.Name : XSDComplexType → String
  | .mk n _ _ _ => n

def XSDComplexType.Sequence : XSDComplexType → Option XSDSequence
  | .mk _ s _ _ => s

def XSDComplexType.Choice : XSDComplexType → Option XSDChoice
  | .mk _ _ c _ => c

def XSDComplexType.Attributes : XSDComplexType → List XSDAttribute
  | .mk _ _ _ a => a

def XSDSequence.Elements : XSDSequence → List XSDElement
  | .mk es => es

def XSDChoice.MinOccurs : XSDChoice → String
  | .mk mn _ _ _ => mn

def XSDChoice.MaxOccurs : XSDChoice → String
  | .mk _ mx _ _ => mx

def XSDChoice.Choice : XSDChoice → Option XSDChoice
  | .mk _ _ c _ => c

def XSDChoice.Elements : XSDChoice → List XSDElement
  | .mk _ _ _ es => es

def XSDElement.Name : XSDElement → String
  | .mk n _ _ _ _ _ _ _ => n

def XSDElement.Namespace : XSDElement → String
  | .mk _ ns _ _ _ _ _ _ => ns

def XSDElement.Typ : XSDElement → String
  | .mk _ _ t _ _ _ _ _ => t

def XSDElement.Ref : XSDElement → String
  | .mk _ _ _ r _ _ _ _ => r

def XSDElement.MinOccurs : XSDElement → String
  | .mk _ _ _ _ mn _ _ _ => mn

def XSDElement.MaxOccurs : XSDElement → String
  | .mk _ _ _ _ _ mx _ _ => mx

def XSDElement.ComplexType : XSDElement → Option XSDComplexType
  | .mk _ _ _ _ _ _ ct _ => ct

def XSDElement.SimpleType : XSDElement → Option XSDSimpleType
  | .mk _ _ _ _ _ _ _ st => st

/-- Replace the element's complex type (models the assignment
`xsdElem.ComplexType = ct` on the local copy in `validateElement`). -/
def XSDElement.withComplexType : XSDElement → Option XSDComplexType → XSDElement
  | .mk n ns t r mn mx _ st, ct => .mk n ns t r mn mx ct st

/-- `XSDSchema` (the `Xmlns` map is never read by the validator and is
omitted). -/
structure XSDSchema where
  TargetNS : String := ""
  ElementFormDefault : String := ""
  Elements : List XSDElement := []
  ComplexTypes : List XSDComplexType := []
  SimpleTypes : List XSDSimpleType := []

/-! ## Generic XML tree (`xml.go`)

`XMLNode` from the final, namespace-aware parser.  The `Attributes` map is
modelled as an association list whose order stands for one possible Go map
iteration order; `Prefix` and `NamespaceDecls` are never read by the
validator and are omitted. -/

/-- `XMLNode`. -/
inductive XMLNode where
  | mk (Name Namespace : String) (Attributes : List (String × String))
       (Content : String) (Children : List XMLNode)

def XMLNode.Name : XMLNode → String
  | .mk n _ _ _ _ => n

def XMLNode.Namespace : XMLNode → String
  | .mk _ ns _ _ _ => ns

def XMLNode.Attributes : XMLNode → List (String × String)
  | .mk _ _ a _ _ => a

def XMLNode.Content : XMLNode → String
  | .mk _ _ _ c _ => c

def XMLNode.Children : XMLNode → List XMLNode
  | .mk _ _ _ _ ch => ch

/-- `ValidationResult` (`result.go`). -/
structure ValidationResult where
  Valid : Bool
  Filename : String
  Errors : List String
deriving Repr, DecidableEq

/-! ## Pure lookup helpers (`pkg/validate.go`, `helpers.go`, `types.go`) -/

/-- `findSimpleType`: first simple type with the given name. -/
def findSimpleType (s : XSDSchema) (name : String) : Option XSDSimpleType :=
  s.SimpleTypes.find? (fun st => st.Name == name)

/-- `findComplexType`: first complex type with the given name. -/
def findComplexType (s : XSDSchema) (name : String) : Option XSDComplexType :=
  s.ComplexTypes.find? (fun ct => ct.Name == name)

/-- Split a character list at every occurrence of `sep`
(model of Go `strings.Split`). -/
def splitChar (sep : Char) : List Char → List (List Char)
  | [] => [[]]
  | c :: cs =>
    let r := splitChar sep cs
    if c = sep then [] :: r
    else
      match r with
      | h :: t => (c :: h) :: t
      | [] => [[c]]

/-- The local name used by `resolveElementRef`: the SECOND colon-separated
part when a colon is present, the whole string otherwise. -/
def refLocalName (ref : String) : String :=
  let parts := splitChar ':' ref.toList
  match parts with
  | _ :: p1 :: _ => String.mk p1
  | p0 :: _ => String.mk p0
  | [] => ""

/-- `resolveElementRef`: resolve a `ref` against top-level schema elements
by local name. -/
def resolveElementRef (s : XSDSchema) (ref : String) : Except String XSDElement :=
  let localName := refLocalName ref
  match s.Elements.find? (fun e => e.Name == localName) with
  | some e => .ok e
  | none => .error ("referenced element not found: " ++ ref)

/-- `validateElementNameAndNS`: name equality plus the namespace policy. -/
def validateElementNameAndNS (s : XSDSchema) (node : XMLNode) (e : XSDElement) : Bool :=
  if node.Name ≠ e.Name then false
  else
    let schemaNamespace := if e.Namespace = "" then s.TargetNS else e.Namespace
    if s.ElementFormDefault = "qualified" then
      if schemaNamespace = "" then node.Namespace == ""
      else node.Namespace == schemaNamespace
    else true

/-- `findSchemaElementNS`: locate a top-level element definition by name and
namespace. -/
def findSchemaElementNS (s : XSDSchema) (name ns : String) : Option XSDElement :=
  s.Elements.find? fun e =>
    let elemNS := if e.Namespace = "" then s.TargetNS else e.Namespace
    e.Name == name &&
      (elemNS == ns ||
        (s.ElementFormDefault != "qualified" && ns == s.TargetNS))

/-! ## Pure value checking (`pkg/types.go`, `pkg/validate.go`) -/

/-- `matched, _ := regexp.MatchString(pat, s)`: the boolean Go returns when
the error is discarded (`false` when the pattern does not compile). -/
def goMatchIgnoreErr (pat s : String) : Bool :=
  (goRegexpMatchString pat s).getD false

/-- Gregorian leap year (Go `time` package rules). -/
def isLeapYear (y : Nat) : Bool :=
  y % 4 == 0 && (y % 100 != 0 || y % 400 == 0)

/-- Days in a month (Go `time` package rules). -/
def daysInMonth (y m : Nat) : Nat :=
  if m = 2 then (if isLeapYear y then 29 else 28)
  else if m = 4 ∨ m = 6 ∨ m = 9 ∨ m = 11 then 30
  else 31

/-- Exactly `k` decimal digits from the front. -/
def parseFixedDigits (k : Nat) (cs : List Char) : Option (Nat × List Char) :=
  let ds := cs.take k
  if ds.length = k ∧ ds.all Char.isDigit then some (digitsToNat ds, cs.drop k) else none

/-- Model of Go `time.Parse("2006-01-02", ...)` on a character list:
four-digit year, two-digit month and day, with calendar range checks.
Returns the unconsumed rest on success. -/
def goParseDateChars (cs : List Char) : Option (List Char) :=
  match parseFixedDigits 4 cs with
  | none => none
  | some (y, r1) =>
    match r1 with
    | '-' :: r2 =>
      match parseFixedDigits 2 r2 with
      | none => none
      | some (m, r3) =>
        match r3 with
        | '-' :: r4 =>
          match parseFixedDigits 2 r4 with
          | none => none
          | some (d, r5) =>
            if 1 ≤ m ∧ m ≤ 12 ∧ 1 ≤ d ∧ d ≤ daysInMonth y m then some r5 else none
        | _ => none
    | _ => none

/-- Model of Go `time.Parse("15:04:05", ...)` on a character list. -/
def goParseTimeChars (cs : List Char) : Option (List Char) :=
  match parseFixedDigits 2 cs with
  | none => none
  | some (h, r1) =>
    match r1 with
    | ':' :: r2 =>
      match parseFixedDigits 2 r2 with
      | none => none
      | some (mi, r3) =>
        match r3 with
        | ':' :: r4 =>
          match parseFixedDigits 2 r4 with
          | none => none
          | some (se, r5) =>
            if h ≤ 23 ∧ mi ≤ 59 ∧ se ≤ 59 then some r5 else none
        | _ => none
    | _ => none

/-- Go `time.Parse("2006-01-02", v)` succeeding. -/
def isGoDate (v : String) : Bool :=
  match goParseDateChars v.toList with
  | some [] => true
  | _ => false

/-- Go `time.Parse("15:04:05", v)` succeeding. -/
def isGoTime (v : String) : Bool :=
  match goParseTimeChars v.toList with
  | some [] => true
  | _ => false

/-- Go `time.Parse("2006-01-02T15:04:05", v)` succeeding. -/
def isGoDateTime (v : String) : Bool :=
  match goParseDateChars v.toList with
  | some ('T' :: rest) =>
    (match goParseTimeChars rest with
     | some [] => true
     | _ => false)
  | _ => false

/-- `validateDuration` from the source: the ISO-8601 duration regular
expression, checked with `regexp.MatchString` (error discarded). -/
def validateDuration (value : String) : Option String :=
  if goMatchIgnoreErr
      "^-?P(([0-9]+Y)?([0-9]+M)?([0-9]+D)?)?(T([0-9]+H)?([0-9]+M)?([0-9]+(\\.[0-9]+)?S)?)?$"
      value
  then none
  else some "invalid duration format"

/-- The `pattern` facet loop of `validateRestrictions`: each declared
pattern is checked with `regexp.MatchString(pattern.Value, value)`; the
first compile error or the first non-match stops the loop with an error. -/
def patternFacetCheck (value : String) : List XSDValue → Option String
  | [] => none
  | p :: ps =>
    match goRegexpMatchString p.Value value with
    | none => some ("invalid pattern: " ++ p.Value)
    | some matched =>
      if matched then patternFacetCheck value ps
      else some ("value does not match pattern: " ++ p.Value)

/-- The shape shared by the four numeric bound blocks of
`validateRestrictions` (each block in the source repeats it with its own
facet field, comparison and message prefix, passed here at the call
sites): skip when the facet is absent, skip silently when the bound does
not parse, otherwise report the bound and the observed value when the
comparison fires. -/
def boundFacetCheck (num : Dec) (bound : XSDValue) (cmp : Dec → Dec → Bool)
    (msg : String) : Option String :=
  if bound.Value ≠ "" then
    match goParseFloat bound.Value with
    | some b =>
      if cmp num b then
        some (msg ++ goFormatFloat b ++ ", got " ++ goFormatFloat num)
      else none
    | none => none
  else none

/-- `validateRestrictions` from the source (a pure function: the facets in
source order, first violation wins).  `utf8.RuneCountInString` is
`String.length` (both count Unicode scalar values). -/
def validateRestrictions (value baseType : String) (r : XSDRestriction) : Option String :=
  let actualLen : Int := (value.length : Int)
  let lenE : Option String :=
    if r.Length.Value ≠ "" then
      let length := goAtoiValue r.Length.Value
      if actualLen ≠ length then
        some ("length must be exactly " ++ toString length ++ ", got " ++ toString actualLen)
      else none
    else none
  let minLenE : Option String :=
    if r.MinLength.Value ≠ "" then
      let minLength := goAtoiValue r.MinLength.Value
      if actualLen < minLength then
        some ("length must be at least " ++ toString minLength ++ ", got " ++ toString actualLen)
      else none
    else none
  let maxLenE : Option String :=
    if r.MaxLength.Value ≠ "" then
      let maxLength := goAtoiValue r.MaxLength.Value
      if actualLen > maxLength then
        some ("length must be at most " ++ toString maxLength ++ ", got " ++ toString actualLen)
      else none
    else none
  let numericE : Option String :=
    if baseType = "xs:decimal" ∨ baseType = "xs:integer" ∨
       baseType = "xs:float" ∨ baseType = "xs:double" then
      let num := goParseFloatValue value
      boundFacetCheck num r.MinInclusive (fun n b => n.blt b) "value must be >= " <|>
      boundFacetCheck num r.MaxInclusive (fun n b => b.blt n) "value must be <= " <|>
      boundFacetCheck num r.MinExclusive (fun n b => n.ble b) "value must be > " <|>
      boundFacetCheck num r.MaxExclusive (fun n b => b.ble n) "value must be < "
    else none
  let patternE : Option String := patternFacetCheck value r.Pattern
  let enumE : Option String :=
    if r.Enumeration.length > 0 then
      if r.Enumeration.any (fun en => value == en.Value) then none
      else some "value must be one of the enumerated values"
    else none
  lenE <|> minLenE <|> maxLenE <|> numericE <|> patternE <|> enumE

example :
    validateRestrictions "0" "xs:decimal"
      { Base := "xs:decimal", MinInclusive := ⟨"1"⟩, MaxInclusive := ⟨"100"⟩ } =
    some "value must be >= 1, got 0" := by decide

example :
    validateRestrictions "123-AB" "xs:string"
      { Base := "xs:string", Pattern := [⟨"[A-Z]{2}-[0-9]{3}"⟩] } =
    some "value does not match pattern: [A-Z]{2}-[0-9]{3}" := by decide

/-! ## The recursive validator (`pkg/validate.go`)

All recursive functions live in one mutual block, structurally recursive on
an explicit fuel argument (every call one level deeper runs with one unit
less fuel, so fuel bounds the recursion depth).  `Res.fuelOut` models
non-termination within the given budget; `Res.crash` models the Go nil
dereference in `validateElementContent`. -/

/-- Outcome of a (possibly crashing, possibly fuel-starved) Go computation. -/
inductive Res (α : Type) where
  | ok (a : α)
  | crash
  | fuelOut
deriving Repr, DecidableEq

/-- Sequencing of Go statements: a crash (panic) or an exhausted recursion
budget in the first statement aborts the rest. -/
def Res.andThen {α β : Type} (x : Res α) (k : α → Res β) : Res β :=
  match x with
  | .crash => .crash
  | .fuelOut => .fuelOut
  | .ok a => k a

/-- Effective minimum-occurrence bound of a string-encoded `minOccurs`
attribute: default `1` when absent or malformed, the literal integer
otherwise (the inline snippet repeated in `validateSequence` and
`validateChoice`). -/
def effectiveMinOccurs (s : String) : Int :=
  if s ≠ "" then
    match goAtoi s with
    | some v => v
    | none => 1
  else 1

/-- Effective maximum-occurrence bound of a string-encoded `maxOccurs`
attribute: default `1` when absent or malformed, `math.MaxInt32` for the
literal `"unbounded"`, the literal integer otherwise. -/
def effectiveMaxOccurs (s : String) : Int :=
  if s ≠ "" then
    if s = "unbounded" then 2147483647
    else
      match goAtoi s with
      | some v => v
      | none => 1
  else 1

/-- The `expectedChildren` map of `validateSequence`: keyed by element name,
a later definition overwrites an earlier one of the same name. -/
def expectedChild (es : List XSDElement) (n : String) : Option XSDElement :=
  es.reverse.find? (fun d => d.Name == n)

/-- The occurrence-checking loop at the end of `validateSequence`: for every
expected element definition compare the observed count of children of that
name with the effective bounds. -/
def seqOccurrenceErrors (children : List XMLNode) (es : List XSDElement) : List String :=
  es.flatMap fun childDef =>
    let minOccurs := effectiveMinOccurs childDef.MinOccurs
    let maxOccurs := effectiveMaxOccurs childDef.MaxOccurs
    let count : Int := (children.countP (fun c => c.Name == childDef.Name) : Nat)
    (if count < minOccurs then
      ["element \x27" ++ childDef.Name ++ "\x27 occurs " ++ toString count ++
        " times, minimum required is " ++ toString minOccurs]
     else []) ++
    (if count > maxOccurs then
      ["element \x27" ++ childDef.Name ++ "\x27 occurs " ++ toString count ++
        " times, maximum allowed is " ++ toString maxOccurs]
     else [])

/-- The `requiredAttrs` map of `validateAttributes`: the distinct names of
schema attributes with `use="required"`, in insertion order (standing for
one possible Go map iteration order). -/
def requiredAttrNames (attrs : List XSDAttribute) : List String :=
  attrs.foldl
    (fun ks a =>
      if a.Use == "required" then (if ks.contains a.Name then ks else ks ++ [a.Name]) else ks)
    []

/-- The built-in (non-`default`) arms of the `switch` in `validateBaseType`:
`some result` when the type name is one of the built-in cases, `none` when
control falls through to the `default` arm. -/
def validateBuiltinBaseType (value typeName : String) : Option (Option String) :=
  if typeName = "xs:string" ∨ typeName = "string" then some none
  else if typeName = "xs:integer" ∨ typeName = "integer" then
    some (match goParseInt 64 value with
          | some _ => none
          | none => some ("invalid integer value: " ++ value))
  else if typeName = "xs:int" ∨ typeName = "int" then
    some (match goParseInt 32 value with
          | some _ => none
          | none => some ("invalid int value: " ++ value))
  else if typeName = "xs:positiveInteger" then
    some (match goParseInt 64 value with
          | none => some ("invalid positive integer value: " ++ value)
          | some val =>
            if val ≤ 0 then some ("value must be positive, got " ++ toString val) else none)
  else if typeName = "xs:decimal" ∨ typeName = "decimal" then
    some (match goParseFloat value with
          | some _ => none
          | none => some ("invalid decimal value: " ++ value))
  else if typeName = "xs:float" ∨ typeName = "float" then
    some (match goParseFloat value with
          | some _ => none
          | none => some ("invalid float value: " ++ value))
  else if typeName = "xs:double" ∨ typeName = "double" then
    some (match goParseFloat value with
          | some _ => none
          | none => some ("invalid double value: " ++ value))
  else if typeName = "xs:long" ∨ typeName = "long" then
    some (match goParseInt 64 value with
          | some _ => none
          | none => some ("invalid long value: " ++ value))
  else if typeName = "xs:boolean" ∨ typeName = "boolean" then
    some (if value ≠ "true" ∧ value ≠ "false" ∧ value ≠ "1" ∧ value ≠ "0" then
           some ("invalid boolean value: " ++ value)
          else none)
  else if typeName = "xs:date" ∨ typeName = "date" then
    some (if isGoDate value then none else some ("invalid date value: " ++ value))
  else if typeName = "xs:time" ∨ typeName = "time" then
    some (if isGoTime value then none else some ("invalid time value: " ++ value))
  else if typeName = "xs:dateTime" ∨ typeName = "dateTime" then
    some (if isGoDateTime value then none else some ("invalid dateTime value: " ++ value))
  else if typeName = "xs:duration" ∨ typeName = "duration" then
    some (match validateDuration value with
          | some _ => some ("invalid duration value: " ++ value)
          | none => none)
  else if typeName = "xs:gYear" ∨ typeName = "gYear" then
    some (if goMatchIgnoreErr "^-?\\d{4}$" value then none
          else some ("invalid gYear value: " ++ value))
  else if typeName = "xs:gYearMonth" ∨ typeName = "gYearMonth" then
    some (if goMatchIgnoreErr "^-?\\d{4}-\\d{2}$" value then none
          else some ("invalid gYearMonth value: " ++ value))
  else if typeName = "xs:hexBinary" ∨ typeName = "hexBinary" then
    some (if goMatchIgnoreErr "^[0-9a-fA-F]*$" value then none
          else some ("invalid hexBinary value: " ++ value))
  else if typeName = "xs:base64Binary" ∨ typeName = "base64Binary" then
    some (if goMatchIgnoreErr "^[A-Za-z0-9+/]*={0,2}$" value then none
          else some ("invalid base64Binary value: " ++ value))
  else if typeName = "xs:anyURI" ∨ typeName = "anyURI" then
    some (if goMatchIgnoreErr "^[a-zA-Z][a-zA-Z0-9+.-]*:" value then none
          else some ("invalid anyURI value: " ++ value))
  else none

/-- The mismatch message of `validateElement` step 2. -/
def nameMismatchError (e : XSDElement) (node : XMLNode) : String :=
  "element name or namespace mismatch: expected \x27\x7b" ++ e.Namespace ++ "\x7d" ++
    e.Name ++ "\x27, got \x27\x7b" ++ node.Namespace ++ "\x7d" ++ node.Name ++ "\x27"

mutual

/-- `validateElement`: recursive validation of an XML element against a
schema element definition. -/
def validateElement (s : XSDSchema) : Nat → XMLNode → XSDElement → Res (List String)
  | 0, _, _ => .fuelOut
  | f + 1, node, e =>
    if e.Ref ≠ "" then
      match resolveElementRef s e.Ref with
      | .error msg => .ok [msg]
      | .ok refElem => validateElement s f node refElem
    else if !(validateElementNameAndNS s node e) then
      .ok [nameMismatchError e node]
    else
      let e :=
        match e.ComplexType with
        | none =>
          if e.Typ ≠ "" then
            match findComplexType s e.Typ with
            | some ct => e.withComplexType (some ct)
            | none => e
          else e
        | some _ => e
      Res.andThen
        (match e.ComplexType with
         | some ct => validateAttributes s f node.Attributes ct.Attributes
         | none => .ok []) fun errs1 =>
      Res.andThen
        (if node.Content ≠ "" then
          match validateElementContent s f node.Content e with
          | .ok none => .ok []
          | .ok (some err) =>
              .ok ["invalid content in element \x27" ++ node.Name ++ "\x27: " ++ err]
          | .crash => .crash
          | .fuelOut => .fuelOut
         else (.ok [] : Res (List String))) fun errs2 =>
      Res.andThen
        (match e.ComplexType with
         | some ct =>
           match ct.Sequence with
           | some sq => validateSequence s f node.Children sq
           | none => .ok []
         | none => .ok []) fun errs3 =>
      Res.andThen
        (match e.ComplexType with
         | some ct =>
           match ct.Choice with
           | some ch => validateChoice s f node.Children ch
           | none => .ok []
         | none => .ok []) fun errs4 =>
      .ok (errs1 ++ errs2 ++ errs3 ++ errs4)
termination_by structural fuel _ _ => fuel

/-- The child loop of `validateSequence`: expected children are validated
recursively, unexpected children are reported. -/
def validateSeqChildren (s : XSDSchema) :
    Nat → List XMLNode → XSDSequence → Res (List String)
  | 0, _, _ => .fuelOut
  | _ + 1, [], _ => .ok []
  | f + 1, child :: rest, sq =>
    match expectedChild sq.Elements child.Name with
    | some childDef =>
      match validateElement s f child childDef with
      | .ok errs =>
        (match validateSeqChildren s f rest sq with
         | .ok errs2 => .ok (errs ++ errs2)
         | .crash => .crash
         | .fuelOut => .fuelOut)
      | .crash => .crash
      | .fuelOut => .fuelOut
    | none =>
      match validateSeqChildren s f rest sq with
      | .ok errs2 => .ok (("unexpected element \x27" ++ child.Name ++ "\x27") :: errs2)
      | .crash => .crash
      | .fuelOut => .fuelOut
termination_by structural fuel _ _ => fuel

/-- `validateSequence`: the child loop followed by the occurrence check. -/
def validateSequence (s : XSDSchema) :
    Nat → List XMLNode → XSDSequence → Res (List String)
  | 0, _, _ => .fuelOut
  | f + 1, children, sq =>
    match validateSeqChildren s f children sq with
    | .ok errs => .ok (errs ++ seqOccurrenceErrors children sq.Elements)
    | .crash => .crash
    | .fuelOut => .fuelOut
termination_by structural fuel _ _ => fuel

/-- The per-child alternative loop of `validateChoice`: try each alternative
in declared order (resolving `ref`s, recording resolution failures and
continuing); the first name-and-namespace match is validated recursively and
stops the loop. -/
def choiceAltLoop (s : XSDSchema) :
    Nat → XMLNode → List XSDElement → Res (Bool × List String)
  | 0, _, _ => .fuelOut
  | _ + 1, _, [] => .ok (false, [])
  | f + 1, child, alt :: alts =>
    match (if alt.Ref ≠ "" then resolveElementRef s alt.Ref else .ok alt) with
    | .error msg =>
      (match choiceAltLoop s f child alts with
       | .ok (found, errs) => .ok (found, msg :: errs)
       | .crash => .crash
       | .fuelOut => .fuelOut)
    | .ok elemToValidate =>
      if validateElementNameAndNS s child elemToValidate then
        match validateElement s f child elemToValidate with
        | .ok errs => .ok (true, errs)
        | .crash => .crash
        | .fuelOut => .fuelOut
      else choiceAltLoop s f child alts
termination_by structural fuel _ _ => fuel

/-- The outer child loop of `validateChoice`: counts matched children and
reports children matching no alternative. -/
def choiceChildLoop (s : XSDSchema) :
    Nat → List XMLNode → List XSDElement → Res (Nat × List String)
  | 0, _, _ => .fuelOut
  | _ + 1, [], _ => .ok (0, [])
  | f + 1, child :: rest, alts =>
    match choiceAltLoop s f child alts with
    | .ok (found, errs) =>
      let errs :=
        if found then errs
        else errs ++ ["element \x27" ++ child.Name ++ "\x27 is not a valid choice"]
      (match choiceChildLoop s f rest alts with
       | .ok (n, errs2) => .ok ((if found then 1 else 0) + n, errs ++ errs2)
       | .crash => .crash
       | .fuelOut => .fuelOut)
    | .crash => .crash
    | .fuelOut => .fuelOut
termination_by structural fuel _ _ => fuel

/-- `validateChoice`: nested choice first, then the child loop (only when
the alternative list is non-nil), then the group occurrence bounds. -/
def validateChoice (s : XSDSchema) :
    Nat → List XMLNode → XSDChoice → Res (List String)
  | 0, _, _ => .fuelOut
  | f + 1, children, ch =>
    let minOccurs := effectiveMinOccurs ch.MinOccurs
    let maxOccurs := effectiveMaxOccurs ch.MaxOccurs
    match
      (match ch.Choice with
       | some c2 => validateChoice s f children c2
       | none => .ok []) with
    | .crash => .crash
    | .fuelOut => .fuelOut
    | .ok nestedErrs =>
      match
        (match ch.Elements with
         | [] => (.ok (0, []) : Res (Nat × List String))
         | _ => choiceChildLoop s f children ch.Elements) with
      | .crash => .crash
      | .fuelOut => .fuelOut
      | .ok (validChoices, loopErrs) =>
        let vc : Int := (validChoices : Nat)
        let boundErrs :=
          (if vc < minOccurs then
            ["choice group occurs " ++ toString vc ++ " times, minimum required is " ++
              toString minOccurs]
           else []) ++
          (if vc > maxOccurs then
            ["choice group occurs " ++ toString vc ++ " times, maximum allowed is " ++
              toString maxOccurs]
           else [])
        .ok (nestedErrs ++ loopErrs ++ boundErrs)
termination_by structural fuel _ _ => fuel

/-- The per-attribute loop of `validateAttributes` over the node's attribute
map (in the iteration order the association list stands for). -/
def validateAttrsLoop (s : XSDSchema) :
    Nat → List (String × String) → List XSDAttribute → Res (List String)
  | 0, _, _ => .fuelOut
  | _ + 1, [], _ => .ok []
  | f + 1, (name, value) :: rest, schemaAttrs =>
    match schemaAttrs.find? (fun a => a.Name == name) with
    | some schemaAttr =>
      match validateAttributeValue s f value schemaAttr with
      | .ok none =>
        (match validateAttrsLoop s f rest schemaAttrs with
         | .ok errs => .ok errs
         | .crash => .crash
         | .fuelOut => .fuelOut)
      | .ok (some err) =>
        (match validateAttrsLoop s f rest schemaAttrs with
         | .ok errs => .ok (("attribute \x27" ++ name ++ "\x27: " ++ err) :: errs)
         | .crash => .crash
         | .fuelOut => .fuelOut)
      | .crash => .crash
      | .fuelOut => .fuelOut
    | none =>
      match validateAttrsLoop s f rest schemaAttrs with
      | .ok errs => .ok (("unexpected attribute \x27" ++ name ++ "\x27") :: errs)
      | .crash => .crash
      | .fuelOut => .fuelOut
termination_by structural fuel _ _ => fuel

/-- `validateAttributes`: the per-attribute loop, then one
missing-required-attribute error per name left in the required map (a
required name survives exactly when no node attribute carries it). -/
def validateAttributes (s : XSDSchema) :
    Nat → List (String × String) → List XSDAttribute → Res (List String)
  | 0, _, _ => .fuelOut
  | f + 1, nodeAttrs, schemaAttrs =>
    match validateAttrsLoop s f nodeAttrs schemaAttrs with
    | .ok errs =>
      let missing :=
        (requiredAttrNames schemaAttrs).filter
          (fun n => !(nodeAttrs.any (fun p => p.1 == n)))
      .ok (errs ++ missing.map (fun n => "missing required attribute \x27" ++ n ++ "\x27"))
    | .crash => .crash
    | .fuelOut => .fuelOut

/-- `validateAttributeValue`: declared type name first, else the inline
simple type's restriction when both are present. -/
def validateAttributeValue (s : XSDSchema) :
    Nat → String → XSDAttribute → Res (Option String)
  | 0, _, _ => .fuelOut
  | f + 1, value, attr =>
    if attr.Typ ≠ "" then validateType s f value attr.Typ none
    else
      match attr.SimpleType with
      | some st =>
        (match st.Restriction with
         | some r => validateType s f value r.Base (some r)
         | none => .ok none)
      | none => .ok none

/-- `validateElementContent`: inline simple type first — reading
`element.SimpleType.Restriction.Base` UNCONDITIONALLY, which crashes when
the restriction is absent — else the declared type name. -/
def validateElementContent (s : XSDSchema) :
    Nat → String → XSDElement → Res (Option String)
  | 0, _, _ => .fuelOut
  | f + 1, content, e =>
    match e.SimpleType with
    | some st =>
      (match st.Restriction with
       | none => .crash
       | some r => validateType s f content r.Base (some r))
    | none =>
      if e.Typ ≠ "" then validateType s f content e.Typ none
      else .ok none

/-- `validateType`: base type first, then the restriction facets. -/
def validateType (s : XSDSchema) :
    Nat → String → String → Option XSDRestriction → Res (Option String)
  | 0, _, _, _ => .fuelOut
  | f + 1, value, typeName, restrictions =>
    match validateBaseType s f value typeName with
    | .ok (some err) => .ok (some err)
    | .ok none =>
      (match restrictions with
       | some r => .ok (validateRestrictions value typeName r)
       | none => .ok none)
    | .crash => .crash
    | .fuelOut => .fuelOut
termination_by structural fuel _ _ => fuel

/-- `validateBaseType` (final iteration, including `xs:int`): dispatch on
the type name — the built-in arms of the `switch` live in the pure
`validateBuiltinBaseType` below; the `default` arm resolves unknown names as
user-defined simple types and recurses through their restriction's base
type. -/
def validateBaseType (s : XSDSchema) : Nat → String → String → Res (Option String)
  | 0, _, _ => .fuelOut
  | f + 1, value, typeName =>
    match validateBuiltinBaseType value typeName with
    | some r => .ok r
    | none =>
      match findSimpleType s typeName with
      | none => .ok (some ("unsupported type: " ++ typeName))
      | some st =>
        match st.Restriction with
        | some r => validateType s f value r.Base (some r)
        | none => .ok (some ("simple type " ++ typeName ++ " has no restriction"))
termination_by structural fuel _ _ => fuel

end

/-- `Validator.Validate`: the XML tokenizer is an external collaborator, so
the already-attempted parse result is the input; a parse failure or an
unmatched root element is a fatal typed error (`Except.error`), otherwise
the recursive walk builds the `ValidationResult`. -/
def Validate (s : XSDSchema) (fuel : Nat) (parsed : Except String XMLNode) :
    Res (Except String ValidationResult) :=
  match parsed with
  | .error err => .ok (.error ("failed to parse XML: " ++ err))
  | .ok xmlNode =>
    match findSchemaElementNS s xmlNode.Name xmlNode.Namespace with
    | none =>
      .ok (.error ("root element \x27\x7b" ++ xmlNode.Namespace ++ "\x7d" ++ xmlNode.Name ++
        "\x27 not defined in schema"))
    | some rootXsd =>
      match validateElement s fuel xmlNode rootXsd with
      | .ok errs =>
        .ok (.ok { Valid := if errs.length > 0 then false else true,
                   Filename := xmlNode.Name, Errors := errs })
      | .crash => .crash
      | .fuelOut => .fuelOut

instance {ε α : Type} [DecidableEq ε] [DecidableEq α] : DecidableEq (Except ε α) := fun x y =>
  match x, y with
  | .ok a, .ok b =>
    if h : a = b then isTrue (by rw [h]) else isFalse (by simp [h])
  | .error a, .error b =>
    if h : a = b then isTrue (by rw [h]) else isFalse (by simp [h])
  | .ok _, .error _ => isFalse (by simp)
  | .error _, .ok _ => isFalse (by simp)

/-! ### Sanity checks mirroring the repository's own unit tests -/

/-- Schema of the `Missing Child Element` unit test. -/
def bookSchema : XSDSchema :=
  { Elements := [.mk "book" "" "" "" "" ""
      (some (.mk "" (some (.mk [.mk "title" "" "xs:string" "" "" "" none none,
                                .mk "author" "" "xs:string" "" "" "" none none])) none []))
      none] }

/-- Document of the `Missing Child Element` unit test. -/
def bookDoc : XMLNode :=
  .mk "book" "" [] "" [.mk "title" "" [] "Go in Action" []]

example :
    Validate bookSchema 100 (.ok bookDoc) =
    .ok (.ok { Valid := false, Filename := "book",
               Errors := ["element \x27author\x27 occurs 0 times, minimum required is 1"] }) := by
  decide

/-- Schema of the `Enumeration Validation` unit test. -/
def prioritySchema : XSDSchema :=
  { Elements := [.mk "priority" "" "" "" "" "" none
      (some (.mk "" (some { Base := "xs:string",
                            Enumeration := [⟨"high"⟩, ⟨"medium"⟩, ⟨"low"⟩] }) none none))] }

example :
    Validate prioritySchema 100 (.ok (.mk "priority" "" [] "urgent" [])) =
    .ok (.ok { Valid := false, Filename := "priority",
               Errors := ["invalid content in element \x27priority\x27: value must be one of the enumerated values"] }) := by
  decide

/-- Schema of the `Missing Required Attribute` unit test. -/
def employeeSchema : XSDSchema :=
  { Elements := [.mk "employee" "" "" "" "" ""
      (some (.mk "" none none [.mk "id" "xs:positiveInteger" "required" "" "" none]))
      none] }

example :
    Validate employeeSchema 100 (.ok (.mk "employee" "" [] "" [])) =
    .ok (.ok { Valid := false, Filename := "employee",
               Errors := ["missing required attribute \x27id\x27"] }) := by
  decide

example :
    Validate bookSchema 100
      (.ok (.mk "book" "" [] ""
        [.mk "title" "" [] "Go in Action" [], .mk "author" "" [] "X" []])) =
    .ok (.ok { Valid := true, Filename := "book", Errors := [] }) := by
  decide

/-! ## Termination side conditions (for C9)

`validateElement` follows `ref` chains without consuming input and
`validateBaseType` follows restriction base-type chains without consuming
input; the two fuelled chain-walkers below make the corresponding
acyclicity preconditions precise. -/

/-- Walk the element-`ref` chain for at most `n` steps: `some` when the
chain reaches a resolution failure or a ref-free element within `n` steps,
`none` when the budget runs out first. -/
def refChainFuel (s : XSDSchema) : Nat → XSDElement → Option (Except String XSDElement)
  | 0, _ => none
  | n + 1, e =>
    if e.Ref ≠ "" then
      match resolveElementRef s e.Ref with
      | .error msg => some (.error msg)
      | .ok e2 => refChainFuel s n e2
    else some (.ok e)

/-- The element-`ref` chain starting at `e` terminates. -/
def RefTerminates (s : XSDSchema) (e : XSDElement) : Prop :=
  ∃ n, (refChainFuel s n e).isSome = true

/-- Whether a type name hits one of the built-in (non-`default`) arms of
the `validateBaseType` switch. -/
def isBuiltinBaseType (t : String) : Bool :=
  (validateBuiltinBaseType "" t).isSome

/-- Walk the restriction base-type chain for at most `n` steps: `true` when
the chain reaches a built-in type, an unknown type, or a restriction-less
simple type within `n` steps. -/
def typeChainFuel (s : XSDSchema) : Nat → String → Bool
  | 0, _ => false
  | n + 1, t =>
    if isBuiltinBaseType t then true
    else
      match findSimpleType s t with
      | none => true
      | some st =>
        match st.Restriction with
        | none => true
        | some r => typeChainFuel s n r.Base

/-- The restriction base-type chain starting at `t` terminates. -/
def TypeChainTerminates (s : XSDSchema) (t : String) : Prop :=
  ∃ n, typeChainFuel s n t = true

/-- Nesting depth of a choice group (induction measure for `validateChoice`
termination). -/
def choiceDepth : XSDChoice → Nat
  | .mk _ _ (some c2) _ => choiceDepth c2 + 1
  | .mk _ _ none _ => 0

/-- A schema whose single top-level element is a `ref` to itself: the
resolution step of `validateElement` loops on it. -/
def selfRefSchema : XSDSchema :=
  { Elements := [.mk "a" "" "" "a" "" "" none none] }

/-- The self-referential element of `selfRefSchema`. -/
def selfRefElem : XSDElement :=
  .mk "a" "" "" "a" "" "" none none

/-- A schema with a simple type whose restriction base is itself: the
`default` arm of `validateBaseType` loops on it. -/
def loopTypeSchema : XSDSchema :=
  { SimpleTypes := [.mk "T" (some { Base := "T" }) none none] }

/-- A schema declaring one element with an attribute-less complex type:
every attribute present on the document node is unexpected, so the order of
the per-attribute errors mirrors the map iteration order (for C8). -/
def c8Schema : XSDSchema :=
  { Elements := [.mk "e" "" "" "" "" "" (some (.mk "" none none [])) none] }

/-- The per-attribute error block the loop contributes for one node
attribute (at the loop's entry fuel). -/
def attrEntryErrors (s : XSDSchema) (f : Nat) (sa : List XSDAttribute)
    (p : String × String) : List String :=
  match sa.find? (fun a => a.Name == p.1) with
  | some a =>
    match validateAttributeValue s f p.2 a with
    | .ok none => []
    | .ok (some m) => ["attribute \x27" ++ p.1 ++ "\x27: " ++ m]
    | .crash => []
    | .fuelOut => []
  | none => ["unexpected attribute \x27" ++ p.1 ++ "\x27"]

/-! ## Claim C2: numeric bound facets -/

/-- C2 counterexample: the claim says the numeric bounds are evaluated
exactly when the resolved base type is one of decimal, integer, float,
double — but for the unprefixed spelling `"integer"` the code skips them
(value `0` against `minInclusive=1` passes), while the prefixed spelling
`"xs:integer"` is checked. -/
theorem c2_counterexample :
    validateRestrictions "0" "integer" { Base := "integer", MinInclusive := ⟨"1"⟩ } = none
    ∧ validateRestrictions "0" "xs:integer" { Base := "xs:integer", MinInclusive := ⟨"1"⟩ } =
        some "value must be >= 1, got 0" := by
  decide

/-- C2 (corrected): the four numeric bound facets (`minInclusive`,
`maxInclusive`, `minExclusive`, `maxExclusive`) are evaluated exactly when
the base type STRING is one of the prefixed spellings `xs:decimal`,
`xs:integer`, `xs:float`, `xs:double` (the unprefixed spellings skip all
four); when evaluated, the value is parsed as floating point and the four
checks run in source order, the first violation winning; and each check —
fully generally — skips an absent facet, silently skips a bound that fails
to parse, reports both the bound and the observed value when its
comparison fires, and passes otherwise. -/
theorem c2_numeric_bounds (v bt : String) (r : XSDRestriction)
    (hLen : r.Length.Value = "") (hMinL : r.MinLength.Value = "")
    (hMaxL : r.MaxLength.Value = "")
    (hPat : r.Pattern = []) (hEnum : r.Enumeration = []) :
    (bt ∉ (["xs:decimal", "xs:integer", "xs:float", "xs:double"] : List String) →
      validateRestrictions v bt r = none)
    ∧ (bt ∈ (["xs:decimal", "xs:integer", "xs:float", "xs:double"] : List String) →
      validateRestrictions v bt r =
        (boundFacetCheck (goParseFloatValue v) r.MinInclusive (fun n b => n.blt b)
            "value must be >= " <|>
         boundFacetCheck (goParseFloatValue v) r.MaxInclusive (fun n b => b.blt n)
            "value must be <= " <|>
         boundFacetCheck (goParseFloatValue v) r.MinExclusive (fun n b => n.ble b)
            "value must be > " <|>
         boundFacetCheck (goParseFloatValue v) r.MaxExclusive (fun n b => b.ble n)
            "value must be < "))
    ∧ (∀ (num : Dec) (bound : XSDValue) (cmp : Dec → Dec → Bool) (msg : String),
        (bound.Value = "" → boundFacetCheck num bound cmp msg = none)
        ∧ (goParseFloat bound.Value = none → boundFacetCheck num bound cmp msg = none)
        ∧ (∀ b, bound.Value ≠ "" → goParseFloat bound.Value = some b →
            cmp num b = true →
            boundFacetCheck num bound cmp msg =
              some (msg ++ goFormatFloat b ++ ", got " ++ goFormatFloat num))
        ∧ (∀ b, goParseFloat bound.Value = some b → cmp num b = false →
            boundFacetCheck num bound cmp msg = none)) := by
  refine ⟨?_, ?_, ?_⟩
  · intro hbt
    simp only [List.mem_cons, List.mem_singleton, List.not_mem_nil, or_false] at hbt
    push_neg at hbt
    obtain ⟨h1, h2, h3, h4⟩ := hbt
    unfold validateRestrictions
    simp [patternFacetCheck, hLen, hMinL, hMaxL, hPat, hEnum, h1, h2, h3, h4]
  · intro hbt
    simp only [List.mem_cons, List.mem_singleton, List.not_mem_nil, or_false] at hbt
    unfold validateRestrictions
    rcases hbt with h | h | h | h <;>
      simp [patternFacetCheck, hLen, hMinL, hMaxL, hPat, hEnum, h]
  · intro num bound cmp msg
    refine ⟨?_, ?_, ?_, ?_⟩
    · intro h
      simp [boundFacetCheck, h]
    · intro h
      by_cases he : bound.Value = ""
      · simp [boundFacetCheck, he]
      · simp [boundFacetCheck, he, h]
    · intro b hne hparse hcmp
      simp [boundFacetCheck, hne, hparse, hcmp]
    · intro b hparse hcmp
      by_cases he : bound.Value = ""
      · simp [boundFacetCheck, he]
      · simp [boundFacetCheck, he, hparse, hcmp]

/-- C2 witness: all four bound facets present at once.  The unprefixed
spelling `"integer"` skips them all; for `"xs:integer"` the result is the
ordered chain of the four checks, within which the unparseable
`minInclusive` bound `"x"` is skipped silently, the violated `maxInclusive`
bound reports bound and value, a satisfied `maxExclusive` bound passes, and
end to end the `maxInclusive` error surfaces. -/
theorem c2_numeric_bounds_witness :
    validateRestrictions "0" "integer"
      { Base := "integer", MinInclusive := ⟨"1"⟩, MaxInclusive := ⟨"10"⟩,
        MinExclusive := ⟨"0"⟩, MaxExclusive := ⟨"11"⟩ } = none
    ∧ validateRestrictions "99" "xs:integer"
        { Base := "xs:integer", MinInclusive := ⟨"x"⟩, MaxInclusive := ⟨"10"⟩,
          MinExclusive := ⟨"0"⟩, MaxExclusive := ⟨"11"⟩ } =
        (boundFacetCheck (goParseFloatValue "99") ⟨"x"⟩ (fun n b => n.blt b)
            "value must be >= " <|>
         boundFacetCheck (goParseFloatValue "99") ⟨"10"⟩ (fun n b => b.blt n)
            "value must be <= " <|>
         boundFacetCheck (goParseFloatValue "99") ⟨"0"⟩ (fun n b => n.ble b)
            "value must be > " <|>
         boundFacetCheck (goParseFloatValue "99") ⟨"11"⟩ (fun n b => b.ble n)
            "value must be < ")
    ∧ boundFacetCheck (goParseFloatValue "99") ⟨"x"⟩ (fun n b => n.blt b)
        "value must be >= " = none
    ∧ boundFacetCheck (goParseFloatValue "99") ⟨"10"⟩ (fun n b => b.blt n)
        "value must be <= " =
        some ("value must be <= " ++ goFormatFloat ⟨10, 0⟩ ++ ", got " ++
          goFormatFloat (goParseFloatValue "99"))
    ∧ boundFacetCheck (goParseFloatValue "0") ⟨"11"⟩ (fun n b => b.ble n)
        "value must be < " = none
    ∧ validateRestrictions "99" "xs:integer"
        { Base := "xs:integer", MinInclusive := ⟨"x"⟩, MaxInclusive := ⟨"10"⟩,
          MinExclusive := ⟨"0"⟩, MaxExclusive := ⟨"11"⟩ } =
        some "value must be <= 10, got 99" := by
  refine ⟨?_, ?_, ?_, ?_, ?_, by decide⟩
  · exact (c2_numeric_bounds "0" "integer"
      { Base := "integer", MinInclusive := ⟨"1"⟩, MaxInclusive := ⟨"10"⟩,
        MinExclusive := ⟨"0"⟩, MaxExclusive := ⟨"11"⟩ }
      rfl rfl rfl rfl rfl).1 (by decide)
  · exact (c2_numeric_bounds "99" "xs:integer"
      { Base := "xs:integer", MinInclusive := ⟨"x"⟩, MaxInclusive := ⟨"10"⟩,
        MinExclusive := ⟨"0"⟩, MaxExclusive := ⟨"11"⟩ }
      rfl rfl rfl rfl rfl).2.1 (by decide)
  · exact ((c2_numeric_bounds "99" "xs:integer" { Base := "xs:integer" }
      rfl rfl rfl rfl rfl).2.2 (goParseFloatValue "99") ⟨"x"⟩ (fun n b => n.blt b)
      "value must be >= ").2.1 (by decide)
  · exact ((c2_numeric_bounds "99" "xs:integer" { Base := "xs:integer" }
      rfl rfl rfl rfl rfl).2.2 (goParseFloatValue "99") ⟨"10"⟩ (fun n b => b.blt n)
      "value must be <= ").2.2.1 ⟨10, 0⟩ (by decide) (by decide) (by decide)
  · exact ((c2_numeric_bounds "0" "xs:integer" { Base := "xs:integer" }
      rfl rfl rfl rfl rfl).2.2 (goParseFloatValue "0") ⟨"11"⟩ (fun n b => b.ble n)
      "value must be < ").2.2.2 ⟨11, 0⟩ (by decide) (by decide)

/-! ## Claim C3: malformed occurrence attributes -/

/-- C3 counterexample: an element definition whose `minOccurs` is the
malformed literal `"abc"` produces NO validation error when the child
occurs once — the malformed value is silently replaced by the default
bound 1, it does not surface as a validation error. -/
theorem c3_counterexample :
    validateSequence {} 100 [.mk "x" "" [] "" []]
      (.mk [.mk "x" "" "" "" "abc" "" none none]) = .ok [] := by
  decide

/-- C3 (corrected): a malformed `minOccurs`/`maxOccurs` value (non-empty,
not a literal integer, and for `maxOccurs` not `"unbounded"`) is tolerated —
the schema model stores it as an uninterpreted string — and during
validation it is SILENTLY replaced by the default bound 1: the occurrence
check behaves exactly as if the attribute were absent, and the malformed
value itself never surfaces as a validation error (an occurrence error
appears only when the observed count violates the default bound). -/
theorem c3_malformed_occurs (mo mx : String)
    (hmo : mo ≠ "") (hmoP : goAtoi mo = none)
    (hmx : mx ≠ "") (hmxU : mx ≠ "unbounded") (hmxP : goAtoi mx = none) :
    effectiveMinOccurs mo = 1 ∧ effectiveMaxOccurs mx = 1
    ∧ ∀ (children : List XMLNode) (n ns t rf : String)
        (ct : Option XSDComplexType) (st : Option XSDSimpleType),
        seqOccurrenceErrors children [.mk n ns t rf mo mx ct st] =
          seqOccurrenceErrors children [.mk n ns t rf "" "" ct st] := by
  have h1 : effectiveMinOccurs mo = 1 := by simp [effectiveMinOccurs, hmo, hmoP]
  have h2 : effectiveMaxOccurs mx = 1 := by simp [effectiveMaxOccurs, hmx, hmxU, hmxP]
  refine ⟨h1, h2, ?_⟩
  intro children n ns t rf ct st
  have e1 : effectiveMinOccurs "" = 1 := by decide
  have e2 : effectiveMaxOccurs "" = 1 := by decide
  simp only [seqOccurrenceErrors, List.flatMap_cons, List.flatMap_nil, List.append_nil,
    XSDElement.MinOccurs, XSDElement.MaxOccurs, XSDElement.Name, h1, h2, e1, e2]

/-- C3 witness: the amended theorem applied to the malformed bounds
`minOccurs="abc"`, `maxOccurs="xyz"` and one observed child. -/
theorem c3_malformed_occurs_witness :
    seqOccurrenceErrors [XMLNode.mk "x" "" [] "" []]
        [.mk "x" "" "" "" "abc" "xyz" none none] =
      seqOccurrenceErrors [XMLNode.mk "x" "" [] "" []]
        [.mk "x" "" "" "" "" "" none none] :=
  (c3_malformed_occurs "abc" "xyz" (by decide) (by decide) (by decide)
      (by decide) (by decide)).2.2 [XMLNode.mk "x" "" [] "" []] "x" "" "" "" none none

/-! ## Claim C4: minOccurs=0, unbounded, defaults -/

/-- C4 counterexample: with `minOccurs="0"` and the (Atoi-accepted) value
`maxOccurs="-1"`, ZERO occurrences of the child DO produce an occurrence
error — refuting "zero occurrences never produce an occurrence error". -/
theorem c4_counterexample :
    validateSequence {} 10 [] (.mk [.mk "x" "" "" "" "0" "-1" none none]) =
      .ok ["element \x27x\x27 occurs 0 times, maximum allowed is -1"] := by
  decide

/-- C4 (corrected): for a sequence member element, (a) when `minOccurs` is
`"0"` AND the effective `maxOccurs` bound is nonnegative, zero occurrences
produce no occurrence error (a negative literal such as `"-1"` is the
exception the counterexample exhibits); (b) when `maxOccurs` is
`"unbounded"`, any observed count between the effective `minOccurs` and the
sentinel `2147483647` (`math.MaxInt32`) produces no occurrence error;
(c)/(d) absent bounds default to 1. -/
theorem c4_occurrence_bounds (d : XSDElement) (children : List XMLNode) :
    (d.MinOccurs = "0" → 0 ≤ effectiveMaxOccurs d.MaxOccurs →
      children.countP (fun c => c.Name == d.Name) = 0 →
      seqOccurrenceErrors children [d] = [])
    ∧ (d.MaxOccurs = "unbounded" →
        effectiveMinOccurs d.MinOccurs ≤ (children.countP (fun c => c.Name == d.Name) : Int) →
        (children.countP (fun c => c.Name == d.Name) : Int) ≤ 2147483647 →
        seqOccurrenceErrors children [d] = [])
    ∧ (d.MinOccurs = "" → effectiveMinOccurs d.MinOccurs = 1)
    ∧ (d.MaxOccurs = "" → effectiveMaxOccurs d.MaxOccurs = 1) := by
  refine ⟨?_, ?_, ?_, ?_⟩
  · intro h0 hmax hcount
    have hmin : effectiveMinOccurs d.MinOccurs = 0 := by rw [h0]; decide
    simp only [seqOccurrenceErrors, List.flatMap_cons, List.flatMap_nil,
      List.append_nil, hmin, hcount]
    have hc1 : ¬ ((0 : Int) < 0) := by omega
    have hc2 : ¬ ((0 : Int) > effectiveMaxOccurs d.MaxOccurs) := by omega
    simp [hc1, hc2]
  · intro hu hmin hmax
    have hmx : effectiveMaxOccurs d.MaxOccurs = 2147483647 := by
      rw [hu]; decide
    simp only [seqOccurrenceErrors, List.flatMap_cons, List.flatMap_nil,
      List.append_nil, hmx]
    have hc1 : ¬ ((children.countP (fun c => c.Name == d.Name) : Int) <
        effectiveMinOccurs d.MinOccurs) := by omega
    have hc2 : ¬ ((children.countP (fun c => c.Name == d.Name) : Int) >
        (2147483647 : Int)) := by omega
    simp [hc1, hc2]
  · intro h; rw [h]; decide
  · intro h; rw [h]; decide

/-- C4 witness: the amended theorem applied to `minOccurs="0"`,
`maxOccurs="unbounded"` and three observed children. -/
theorem c4_occurrence_bounds_witness :
    seqOccurrenceErrors
        [XMLNode.mk "x" "" [] "" [], XMLNode.mk "x" "" [] "" [], XMLNode.mk "x" "" [] "" []]
        [.mk "x" "" "" "" "0" "unbounded" none none] = [] :=
  (c4_occurrence_bounds (.mk "x" "" "" "" "0" "unbounded" none none)
      [XMLNode.mk "x" "" [] "" [], XMLNode.mk "x" "" [] "" [], XMLNode.mk "x" "" [] "" []]).2.1
    rfl (by decide) (by decide)

/-! ## Claim C10: the nil dereference in `validateElementContent` -/

/-- C10 (confirmed): content validation of an element carrying an inline
simple type unconditionally reads the simple type's `Restriction`
(`element.SimpleType.Restriction.Base`): when the restriction is absent
(e.g. a Union-only or List-only inline simple type) the read faults
(`Res.crash`, the Go nil dereference) instead of returning a content error;
when it is present the content is checked against it; and the fault
propagates out of `validateElement` for any node with non-empty content. -/
theorem c10_inline_simpletype_crash (s : XSDSchema) (f : Nat) (content : String)
    (e : XSDElement) (st : XSDSimpleType) (hst : e.SimpleType = some st) :
    (st.Restriction = none → validateElementContent s (f + 1) content e = .crash)
    ∧ (∀ r, st.Restriction = some r →
        validateElementContent s (f + 1) content e = validateType s f content r.Base (some r))
    ∧ (∀ (node : XMLNode), node.Content ≠ "" → st.Restriction = none →
        e.Ref = "" → e.ComplexType = none → e.Typ = "" →
        validateElementNameAndNS s node e = true →
        validateElement s (f + 2) node e = .crash) := by
  refine ⟨?_, ?_, ?_⟩
  · intro hres
    simp [validateElementContent, hst, hres]
  · intro r hres
    simp [validateElementContent, hst, hres]
  · intro node hcontent hres href hct htyp hname
    have hcc : validateElementContent s (f + 1) content e = .crash := by
      simp [validateElementContent, hst, hres]
    simp [validateElement, Res.andThen, href, hname, hct, htyp, hcontent,
      validateElementContent, hst, hres]

/-- C10 witness: a Union-only inline simple type with non-empty content
crashes the content check (and `validateElement`). -/
theorem c10_inline_simpletype_crash_witness :
    validateElementContent {} 1 "boom"
        (.mk "u" "" "" "" "" "" none (some (.mk "" none (some (.mk [] [])) none))) = .crash :=
  (c10_inline_simpletype_crash {} 0 "boom"
      (.mk "u" "" "" "" "" "" none (some (.mk "" none (some (.mk [] [])) none)))
      (.mk "" none (some (.mk [] [])) none) rfl).1 rfl

/-! ## Claim C6: fatal setup errors vs. accumulated content errors -/

/-- C6 counterexample: an input whose XML parses and whose root matches a
top-level schema element on which `Validate` nevertheless does NOT return a
`ValidationResult`: the walk hits the `validateElementContent` nil
dereference (a Union-only inline simple type with non-empty content) and
the call faults. -/
theorem c6_counterexample :
    (findSchemaElementNS
        { Elements := [.mk "u" "" "" "" "" "" none (some (.mk "" none (some (.mk [] [])) none))] }
        "u" "").isSome = true
    ∧ Validate
        { Elements := [.mk "u" "" "" "" "" "" none (some (.mk "" none (some (.mk [] [])) none))] }
        100 (.ok (.mk "u" "" [] "boom" [])) = .crash := by
  constructor
  · rfl
  · decide

/-- C6 (corrected): a parse failure or an unmatched root element yields a
single typed error and no `ValidationResult`; and PROVIDED the recursive
walk completes without faulting (no restriction-less inline simple type is
content-checked — see the C10 theorem — and the recursion budget suffices),
`Validate` returns a `ValidationResult` whose `Valid` flag is true exactly
when the accumulated error list is empty. -/
theorem c6_validate_outcomes (s : XSDSchema) (fuel : Nat) :
    (∀ msg, Validate s fuel (.error msg) = .ok (.error ("failed to parse XML: " ++ msg)))
    ∧ (∀ node : XMLNode, findSchemaElementNS s node.Name node.Namespace = none →
        Validate s fuel (.ok node) =
          .ok (.error ("root element \x27\x7b" ++ node.Namespace ++ "\x7d" ++ node.Name ++
            "\x27 not defined in schema")))
    ∧ (∀ (node : XMLNode) (root : XSDElement) (errs : List String),
        findSchemaElementNS s node.Name node.Namespace = some root →
        validateElement s fuel node root = .ok errs →
        Validate s fuel (.ok node) =
          .ok (.ok { Valid := if errs.length > 0 then false else true,
                     Filename := node.Name, Errors := errs })
        ∧ ((if errs.length > 0 then false else true) = true ↔ errs = [])) := by
  refine ⟨fun msg => rfl, ?_, ?_⟩
  · intro node h
    simp [Validate, h]
  · intro node root errs hf hv
    refine ⟨by simp [Validate, hf, hv], ?_⟩
    cases errs <;> simp

/-- C6 witness: the amended theorem applied to the book schema and the
document missing its `author` child. -/
theorem c6_validate_outcomes_witness :
    Validate bookSchema 100 (.ok bookDoc) =
      .ok (.ok { Valid := false, Filename := "book",
                 Errors := ["element \x27author\x27 occurs 0 times, minimum required is 1"] }) :=
  ((c6_validate_outcomes bookSchema 100).2.2 bookDoc
      (.mk "book" "" "" "" "" ""
        (some (.mk "" (some (.mk [.mk "title" "" "xs:string" "" "" "" none none,
                                  .mk "author" "" "xs:string" "" "" "" none none])) none []))
        none)
      ["element \x27author\x27 occurs 0 times, minimum required is 1"] rfl rfl).1

/-! ## Claim C7: content dispatch and the empty-content leniency -/

/-- C7 counterexample: for a node with non-empty content whose element
carries a restriction-less inline simple type, the claim's "else" branch
(check against the declared type name) never runs — the checker faults
instead, although the declared-type check itself would succeed. -/
theorem c7_counterexample :
    validateElementContent {} 100 "x"
        (.mk "n" "" "xs:string" "" "" "" none (some (.mk "" none (some (.mk [] [])) none))) = .crash
    ∧ validateType {} 100 "x" "xs:string" none = .ok none := by
  decide

/-- C7 (corrected): (i) empty trimmed content is never type-checked — even
an element whose inline simple type would crash the checker (and an
arbitrary declared type name) produces nothing for an empty-content node;
(ii) non-empty content with an inline simple type carrying a restriction is
checked against that restriction; (iii) non-empty content with no inline
simple type and a declared type name is checked against the type name with
no restriction; (iv) the deviation from the claim: when an inline simple
type is present WITHOUT a restriction, the checker faults instead of
falling back to the declared type name. -/
theorem c7_content_dispatch (s : XSDSchema) (f : Nat) :
    (∀ (name ns typ : String) (stOpt : Option XSDSimpleType),
        validateElementNameAndNS s (.mk name ns [] "" [])
          (.mk name ns typ "" "" "" none stOpt) = true →
        findComplexType s typ = none →
        validateElement s (f + 1) (.mk name ns [] "" [])
          (.mk name ns typ "" "" "" none stOpt) = .ok [])
    ∧ (∀ (content : String) (e : XSDElement) (st : XSDSimpleType) (r : XSDRestriction),
        e.SimpleType = some st → st.Restriction = some r →
        validateElementContent s (f + 1) content e = validateType s f content r.Base (some r))
    ∧ (∀ (content : String) (e : XSDElement),
        e.SimpleType = none → e.Typ ≠ "" →
        validateElementContent s (f + 1) content e = validateType s f content e.Typ none)
    ∧ (∀ (content : String) (e : XSDElement) (st : XSDSimpleType),
        e.SimpleType = some st → st.Restriction = none →
        validateElementContent s (f + 1) content e = .crash) := by
  refine ⟨?_, ?_, ?_, ?_⟩
  · intro name ns typ stOpt hname hct
    by_cases htyp : typ = ""
    · subst htyp
      simp [validateElement, Res.andThen, hname, XSDElement.Ref, XSDElement.ComplexType,
        XSDElement.Typ, XMLNode.Content, XMLNode.Name, XMLNode.Children,
        XMLNode.Attributes]
    · simp [validateElement, Res.andThen, hname, htyp, hct, XSDElement.Ref, XSDElement.ComplexType,
        XSDElement.Typ, XMLNode.Content, XMLNode.Name, XMLNode.Children,
        XMLNode.Attributes]
  · intro content e st r hst hres
    simp [validateElementContent, hst, hres]
  · intro content e hst htyp
    simp [validateElementContent, hst, htyp]
  · intro content e st hst hres
    simp [validateElementContent, hst, hres]

/-- C7 witness: the empty-content leniency applied to an element whose
inline simple type would crash the checker on any non-empty content. -/
theorem c7_content_dispatch_witness :
    validateElement {} 1 (.mk "n" "" [] "" [])
      (.mk "n" "" "" "" "" "" none (some (.mk "" none (some (.mk [] [])) none))) = .ok [] :=
  (c7_content_dispatch {} 0).1 "n" "" "" (some (.mk "" none (some (.mk [] [])) none))
    rfl rfl

/-! ## Fuel monotonicity

One more unit of fuel never changes a result that was already delivered:
a run either agrees with the longer run or ran out of fuel.  Proved for the
whole mutual family at once by induction on the fuel. -/

theorem withComplexType_ComplexType (e : XSDElement) (o : Option XSDComplexType) :
    (e.withComplexType o).ComplexType = o := by
  cases e; rfl

theorem withComplexType_Ref (e : XSDElement) (o : Option XSDComplexType) :
    (e.withComplexType o).Ref = e.Ref := by
  cases e; rfl

theorem withComplexType_Typ (e : XSDElement) (o : Option XSDComplexType) :
    (e.withComplexType o).Typ = e.Typ := by
  cases e; rfl

theorem withComplexType_SimpleType (e : XSDElement) (o : Option XSDComplexType) :
    (e.withComplexType o).SimpleType = e.SimpleType := by
  cases e; rfl

/-- Congruence for the error-propagating match cascades of the validator:
if the scrutinees agree (or the first ran out of fuel) and the
continuations agree pointwise (or run out of fuel), so does the cascade. -/
theorem resMatchCongr {α β : Type} (x y : Res α) (k q : α → Res β)
    (hx : x = y ∨ x = .fuelOut) (hk : ∀ a, k a = q a ∨ k a = .fuelOut) :
    Res.andThen x k = Res.andThen y q ∨ Res.andThen x k = (.fuelOut : Res β) := by
  rcases hx with h | h
  · subst h
    cases x with
    | ok a => exact hk a
    | crash => left; rfl
    | fuelOut => right; rfl
  · subst h
    right; rfl

set_option maxHeartbeats 4000000 in
theorem validatorStepMono (s : XSDSchema) : ∀ f : Nat,
    (∀ node e, validateElement s f node e = validateElement s (f + 1) node e
       ∨ validateElement s f node e = .fuelOut)
    ∧ (∀ ch sq, validateSeqChildren s f ch sq = validateSeqChildren s (f + 1) ch sq
       ∨ validateSeqChildren s f ch sq = .fuelOut)
    ∧ (∀ ch sq, validateSequence s f ch sq = validateSequence s (f + 1) ch sq
       ∨ validateSequence s f ch sq = .fuelOut)
    ∧ (∀ c alts, choiceAltLoop s f c alts = choiceAltLoop s (f + 1) c alts
       ∨ choiceAltLoop s f c alts = .fuelOut)
    ∧ (∀ ch alts, choiceChildLoop s f ch alts = choiceChildLoop s (f + 1) ch alts
       ∨ choiceChildLoop s f ch alts = .fuelOut)
    ∧ (∀ ch c, validateChoice s f ch c = validateChoice s (f + 1) ch c
       ∨ validateChoice s f ch c = .fuelOut)
    ∧ (∀ na sa, validateAttrsLoop s f na sa = validateAttrsLoop s (f + 1) na sa
       ∨ validateAttrsLoop s f na sa = .fuelOut)
    ∧ (∀ na sa, validateAttributes s f na sa = validateAttributes s (f + 1) na sa
       ∨ validateAttributes s f na sa = .fuelOut)
    ∧ (∀ v a, validateAttributeValue s f v a = validateAttributeValue s (f + 1) v a
       ∨ validateAttributeValue s f v a = .fuelOut)
    ∧ (∀ c e, validateElementContent s f c e = validateElementContent s (f + 1) c e
       ∨ validateElementContent s f c e = .fuelOut)
    ∧ (∀ v t r, validateType s f v t r = validateType s (f + 1) v t r
       ∨ validateType s f v t r = .fuelOut)
    ∧ (∀ v t, validateBaseType s f v t = validateBaseType s (f + 1) v t
       ∨ validateBaseType s f v t = .fuelOut) := by
  intro f
  induction f with
  | zero =>
    refine ⟨?_, ?_, ?_, ?_, ?_, ?_, ?_, ?_, ?_, ?_, ?_, ?_⟩ <;> intros <;>
      (right; rfl)
  | succ f ih =>
    obtain ⟨ihElem, ihSeqCh, ihSeq, ihAltL, ihChildL, ihChoice,
      ihAttrsL, ihAttrs, ihAttrV, ihContent, ihType, ihBase⟩ := ih
    -- validateBaseType
    have stepBase : ∀ v t, validateBaseType s (f + 1) v t = validateBaseType s (f + 2) v t
        ∨ validateBaseType s (f + 1) v t = .fuelOut := by
      intro v t
      simp only [validateBaseType]
      cases hb : validateBuiltinBaseType v t with
      | some r => left; rfl
      | none =>
        cases hf : findSimpleType s t with
        | none => left; rfl
        | some st =>
          dsimp only
          cases hr : st.Restriction with
          | none => left; rfl
          | some r =>
            dsimp only
            rcases ihType v r.Base (some r) with h | h
            · left; rw [h]
            · right; exact h
    -- validateType
    have stepType : ∀ v t r, validateType s (f + 1) v t r = validateType s (f + 2) v t r
        ∨ validateType s (f + 1) v t r = .fuelOut := by
      intro v t r
      simp only [validateType]
      rcases ihBase v t with h | h
      · rw [← h]
        cases hb : validateBaseType s f v t with
        | ok o => cases o <;> left <;> rfl
        | crash => left; rfl
        | fuelOut => right; rfl
      · rw [h]
        cases hb : validateBaseType s (f + 1) v t with
        | ok o => cases o <;> (right; rfl)
        | crash => right; rfl
        | fuelOut => right; rfl
    -- validateElementContent
    have stepContent : ∀ c e, validateElementContent s (f + 1) c e = validateElementContent s (f + 2) c e
        ∨ validateElementContent s (f + 1) c e = .fuelOut := by
      intro c e
      simp only [validateElementContent]
      cases hst : e.SimpleType with
      | some st =>
        dsimp only
        cases hr : st.Restriction with
        | none => dsimp only; left; rfl
        | some r => dsimp only; exact ihType c r.Base (some r)
      | none =>
        dsimp only
        split_ifs with h
        · exact ihType c e.Typ none
        · left; rfl
    -- validateAttributeValue
    have stepAttrV : ∀ v a, validateAttributeValue s (f + 1) v a = validateAttributeValue s (f + 2) v a
        ∨ validateAttributeValue s (f + 1) v a = .fuelOut := by
      intro v a
      simp only [validateAttributeValue]
      split_ifs with h
      · exact ihType v a.Typ none
      · cases hst : a.SimpleType with
        | some st =>
          dsimp only
          cases hr : st.Restriction with
          | some r => dsimp only; exact ihType v r.Base (some r)
          | none => dsimp only; left; rfl
        | none => left; rfl
    -- validateAttrsLoop
    have stepAttrsL : ∀ na sa, validateAttrsLoop s (f + 1) na sa = validateAttrsLoop s (f + 2) na sa
        ∨ validateAttrsLoop s (f + 1) na sa = .fuelOut := by
      intro na sa
      cases na with
      | nil => left; rfl
      | cons p rest =>
        obtain ⟨n, v⟩ := p
        simp only [validateAttrsLoop]
        cases hfind : sa.find? (fun a => a.Name == n) with
        | some a =>
          dsimp only
          rcases ihAttrV v a with h1 | h1
          · rw [← h1]
            cases hv : validateAttributeValue s f v a with
            | crash => left; rfl
            | fuelOut => right; rfl
            | ok o =>
              rcases ihAttrsL rest sa with h2 | h2
              · rw [← h2]; left; rfl
              · right; cases o <;> rw [h2]
          · right; rw [h1]
        | none =>
          rcases ihAttrsL rest sa with h2 | h2
          · rw [← h2]; left; rfl
          · right; rw [h2]
    -- validateAttributes
    have stepAttrs : ∀ na sa, validateAttributes s (f + 1) na sa = validateAttributes s (f + 2) na sa
        ∨ validateAttributes s (f + 1) na sa = .fuelOut := by
      intro na sa
      simp only [validateAttributes]
      rcases ihAttrsL na sa with h | h
      · rw [← h]; left; rfl
      · right; rw [h]
    -- validateElement
    have stepElem : ∀ node e, validateElement s (f + 1) node e = validateElement s (f + 2) node e
        ∨ validateElement s (f + 1) node e = .fuelOut := by
      intro node e
      rw [validateElement.eq_2, validateElement.eq_2]
      dsimp only
      generalize (match e.ComplexType with
        | none =>
          if e.Typ ≠ "" then
            match findComplexType s e.Typ with
            | some ct => e.withComplexType (some ct)
            | none => e
          else e
        | some _ => e) = e2
      by_cases href : e.Ref ≠ ""
      · rw [if_pos href, if_pos href]
        cases hres : resolveElementRef s e.Ref with
        | error msg => left; rfl
        | ok refElem => dsimp only; exact ihElem node refElem
      · rw [if_neg href, if_neg href]
        by_cases hname : (!validateElementNameAndNS s node e) = true
        · rw [if_pos hname, if_pos hname]; left; rfl
        · rw [if_neg hname, if_neg hname]
          refine resMatchCongr _ _ _ _ ?_ ?_
          · cases hct : e2.ComplexType with
            | some ct => dsimp only; exact ihAttrs node.Attributes ct.Attributes
            | none => left; rfl
          · intro errs1
            refine resMatchCongr _ _ _ _ ?_ ?_
            · by_cases hcont : node.Content ≠ ""
              · rw [if_pos hcont, if_pos hcont]
                rcases ihContent node.Content e2 with h | h
                · rw [← h]
                  cases hv : validateElementContent s f node.Content e2 with
                  | ok o => cases o <;> (left; rfl)
                  | crash => left; rfl
                  | fuelOut => right; rfl
                · right; rw [h]
              · rw [if_neg hcont, if_neg hcont]; left; rfl
            · intro errs2
              refine resMatchCongr _ _ _ _ ?_ ?_
              · cases hct : e2.ComplexType with
                | some ct =>
                  dsimp only
                  cases hsq : ct.Sequence with
                  | some sq => dsimp only; exact ihSeq node.Children sq
                  | none => left; rfl
                | none => left; rfl
              · intro errs3
                refine resMatchCongr _ _ _ _ ?_ ?_
                · cases hct : e2.ComplexType with
                  | some ct =>
                    dsimp only
                    cases hch : ct.Choice with
                    | some c => dsimp only; exact ihChoice node.Children c
                    | none => left; rfl
                  | none => left; rfl
                · intro errs4
                  left; rfl
    -- validateSeqChildren
    have stepSeqCh : ∀ ch sq, validateSeqChildren s (f + 1) ch sq = validateSeqChildren s (f + 2) ch sq
        ∨ validateSeqChildren s (f + 1) ch sq = .fuelOut := by
      intro ch sq
      cases ch with
      | nil => left; rfl
      | cons child rest =>
        simp only [validateSeqChildren]
        cases hexp : expectedChild sq.Elements child.Name with
        | some childDef =>
          dsimp only
          rcases ihElem child childDef with h1 | h1
          · rw [← h1]
            cases hv : validateElement s f child childDef with
            | crash => left; rfl
            | fuelOut => right; rfl
            | ok errs =>
              rcases ihSeqCh rest sq with h2 | h2
              · rw [← h2]; left; rfl
              · right; rw [h2]
          · right; rw [h1]
        | none =>
          rcases ihSeqCh rest sq with h2 | h2
          · rw [← h2]; left; rfl
          · right; rw [h2]
    -- validateSequence
    have stepSeq : ∀ ch sq, validateSequence s (f + 1) ch sq = validateSequence s (f + 2) ch sq
        ∨ validateSequence s (f + 1) ch sq = .fuelOut := by
      intro ch sq
      simp only [validateSequence]
      rcases ihSeqCh ch sq with h | h
      · rw [← h]; left; rfl
      · right; rw [h]
    -- choiceAltLoop
    have stepAltL : ∀ c alts, choiceAltLoop s (f + 1) c alts = choiceAltLoop s (f + 2) c alts
        ∨ choiceAltLoop s (f + 1) c alts = .fuelOut := by
      intro c alts
      cases alts with
      | nil => left; rfl
      | cons alt rest =>
        simp only [choiceAltLoop]
        cases hres : (if alt.Ref ≠ "" then resolveElementRef s alt.Ref else Except.ok alt) with
        | error msg =>
          dsimp only
          rcases ihAltL c rest with h | h
          · rw [← h]; left; rfl
          · right; rw [h]
        | ok e2 =>
          dsimp only
          split_ifs with hn
          · rcases ihElem c e2 with h | h
            · rw [← h]; left; rfl
            · right; rw [h]
          · exact ihAltL c rest
    -- choiceChildLoop
    have stepChildL : ∀ ch alts, choiceChildLoop s (f + 1) ch alts = choiceChildLoop s (f + 2) ch alts
        ∨ choiceChildLoop s (f + 1) ch alts = .fuelOut := by
      intro ch alts
      cases ch with
      | nil => left; rfl
      | cons child rest =>
        simp only [choiceChildLoop]
        rcases ihAltL child alts with h1 | h1
        · rw [← h1]
          cases hv : choiceAltLoop s f child alts with
          | crash => left; rfl
          | fuelOut => right; rfl
          | ok p =>
            obtain ⟨found, errs⟩ := p
            rcases ihChildL rest alts with h2 | h2
            · rw [← h2]; left; rfl
            · right; rw [h2]
        · right; rw [h1]
    -- validateChoice
    have stepChoice : ∀ ch c, validateChoice s (f + 1) ch c = validateChoice s (f + 2) ch c
        ∨ validateChoice s (f + 1) ch c = .fuelOut := by
      intro ch c
      rw [validateChoice.eq_2, validateChoice.eq_2]
      dsimp only
      cases hcc : c.Choice with
      | some c2 =>
        dsimp only
        rcases ihChoice ch c2 with h1 | h1
        · rw [← h1]
          cases hv : validateChoice s f ch c2 with
          | crash => left; rfl
          | fuelOut => right; rfl
          | ok nestedErrs =>
            cases hel : c.Elements with
            | nil => left; rfl
            | cons a rest =>
              rcases ihChildL ch (a :: rest) with h2 | h2
              · rw [← h2]; left; rfl
              · right; rw [h2]
        · right; rw [h1]
      | none =>
        cases hel : c.Elements with
        | nil => left; rfl
        | cons a rest =>
          rcases ihChildL ch (a :: rest) with h2 | h2
          · rw [← h2]; left; rfl
          · right; rw [h2]
    exact ⟨stepElem, stepSeqCh, stepSeq, stepAltL, stepChildL, stepChoice,
      stepAttrsL, stepAttrs, stepAttrV, stepContent, stepType, stepBase⟩

/-- Monotonicity transfer: a step-monotone fuelled computation agrees with
any larger fuel unless it ran out. -/
theorem resMonoOfStep {α : Type} (F : Nat → Res α)
    (hstep : ∀ m, F m = F (m + 1) ∨ F m = .fuelOut) {f g : Nat} (h : f ≤ g) :
    F f = F g ∨ F f = .fuelOut := by
  induction h with
  | refl => left; rfl
  | step h' ih =>
    rcases ih with h1 | h1
    · rcases hstep _ with h2 | h2
      · left; exact h1.trans h2
      · right; exact h1.trans h2
    · right; exact h1

/-- Two delivered results of the same fuelled computation agree, whatever
the fuels. -/
theorem resComputesUnique {α : Type} (F : Nat → Res α)
    (hstep : ∀ m, F m = F (m + 1) ∨ F m = .fuelOut) {f g : Nat} {a b : α}
    (ha : F f = .ok a) (hb : F g = .ok b) : a = b := by
  rcases Nat.le_total f g with h | h
  · rcases resMonoOfStep F hstep h with h1 | h1
    · rw [ha, hb] at h1; exact Res.ok.inj h1
    · rw [ha] at h1; simp at h1
  · rcases resMonoOfStep F hstep h with h1 | h1
    · rw [hb, ha] at h1; exact (Res.ok.inj h1).symm
    · rw [hb] at h1; simp at h1

theorem validateElement_mono (s : XSDSchema) {f g : Nat} (h : f ≤ g) (node : XMLNode)
    (e : XSDElement) :
    validateElement s f node e = validateElement s g node e
    ∨ validateElement s f node e = .fuelOut :=
  resMonoOfStep (fun m => validateElement s m node e)
    (fun m => (validatorStepMono s m).1 node e) h

theorem validateAttributeValue_mono (s : XSDSchema) {f g : Nat} (h : f ≤ g) (v : String)
    (a : XSDAttribute) :
    validateAttributeValue s f v a = validateAttributeValue s g v a
    ∨ validateAttributeValue s f v a = .fuelOut :=
  resMonoOfStep (fun m => validateAttributeValue s m v a)
    (fun m => (validatorStepMono s m).2.2.2.2.2.2.2.2.1 v a) h

theorem validateType_mono (s : XSDSchema) {f g : Nat} (h : f ≤ g) (v t : String)
    (r : Option XSDRestriction) :
    validateType s f v t r = validateType s g v t r
    ∨ validateType s f v t r = .fuelOut :=
  resMonoOfStep (fun m => validateType s m v t r)
    (fun m => (validatorStepMono s m).2.2.2.2.2.2.2.2.2.2.1 v t r) h

theorem validateBaseType_mono (s : XSDSchema) {f g : Nat} (h : f ≤ g) (v t : String) :
    validateBaseType s f v t = validateBaseType s g v t
    ∨ validateBaseType s f v t = .fuelOut :=
  resMonoOfStep (fun m => validateBaseType s m v t)
    (fun m => (validatorStepMono s m).2.2.2.2.2.2.2.2.2.2.2 v t) h

theorem validateElementContent_mono (s : XSDSchema) {f g : Nat} (h : f ≤ g)
    (c : String) (e : XSDElement) :
    validateElementContent s f c e = validateElementContent s g c e
    ∨ validateElementContent s f c e = .fuelOut :=
  resMonoOfStep (fun m => validateElementContent s m c e)
    (fun m => (validatorStepMono s m).2.2.2.2.2.2.2.2.2.1 c e) h

theorem validateAttrsLoop_mono (s : XSDSchema) {f g : Nat} (h : f ≤ g)
    (na : List (String × String)) (sa : List XSDAttribute) :
    validateAttrsLoop s f na sa = validateAttrsLoop s g na sa
    ∨ validateAttrsLoop s f na sa = .fuelOut :=
  resMonoOfStep (fun m => validateAttrsLoop s m na sa)
    (fun m => (validatorStepMono s m).2.2.2.2.2.2.1 na sa) h

theorem validateAttributes_mono (s : XSDSchema) {f g : Nat} (h : f ≤ g)
    (na : List (String × String)) (sa : List XSDAttribute) :
    validateAttributes s f na sa = validateAttributes s g na sa
    ∨ validateAttributes s f na sa = .fuelOut :=
  resMonoOfStep (fun m => validateAttributes s m na sa)
    (fun m => (validatorStepMono s m).2.2.2.2.2.2.2.1 na sa) h

theorem validateSequence_mono (s : XSDSchema) {f g : Nat} (h : f ≤ g)
    (ch : List XMLNode) (sq : XSDSequence) :
    validateSequence s f ch sq = validateSequence s g ch sq
    ∨ validateSequence s f ch sq = .fuelOut :=
  resMonoOfStep (fun m => validateSequence s m ch sq)
    (fun m => (validatorStepMono s m).2.2.1 ch sq) h

theorem validateSeqChildren_mono (s : XSDSchema) {f g : Nat} (h : f ≤ g)
    (ch : List XMLNode) (sq : XSDSequence) :
    validateSeqChildren s f ch sq = validateSeqChildren s g ch sq
    ∨ validateSeqChildren s f ch sq = .fuelOut :=
  resMonoOfStep (fun m => validateSeqChildren s m ch sq)
    (fun m => (validatorStepMono s m).2.1 ch sq) h

theorem choiceAltLoop_mono (s : XSDSchema) {f g : Nat} (h : f ≤ g)
    (c : XMLNode) (alts : List XSDElement) :
    choiceAltLoop s f c alts = choiceAltLoop s g c alts
    ∨ choiceAltLoop s f c alts = .fuelOut :=
  resMonoOfStep (fun m => choiceAltLoop s m c alts)
    (fun m => (validatorStepMono s m).2.2.2.1 c alts) h

theorem choiceChildLoop_mono (s : XSDSchema) {f g : Nat} (h : f ≤ g)
    (ch : List XMLNode) (alts : List XSDElement) :
    choiceChildLoop s f ch alts = choiceChildLoop s g ch alts
    ∨ choiceChildLoop s f ch alts = .fuelOut :=
  resMonoOfStep (fun m => choiceChildLoop s m ch alts)
    (fun m => (validatorStepMono s m).2.2.2.2.1 ch alts) h

theorem validateChoice_mono (s : XSDSchema) {f g : Nat} (h : f ≤ g)
    (ch : List XMLNode) (c : XSDChoice) :
    validateChoice s f ch c = validateChoice s g ch c
    ∨ validateChoice s f ch c = .fuelOut :=
  resMonoOfStep (fun m => validateChoice s m ch c)
    (fun m => (validatorStepMono s m).2.2.2.2.2.1 ch c) h

/-! ## Claim C5: attribute validation -/

/-- Pointwise congruence for `flatMap` over the members of a list. -/
theorem flatMapCongrMem {α β : Type} :
    ∀ (l : List α) (f g : α → List β), (∀ a ∈ l, f a = g a) →
      l.flatMap f = l.flatMap g := by
  intro l
  induction l with
  | nil => intro f g h; rfl
  | cons a rest ih =>
    intro f g h
    simp only [List.flatMap_cons]
    rw [h a (by simp), ih f g (fun x hx => h x (by simp [hx]))]

/-- A successful run of the attribute loop delivers exactly the
concatenation of the per-attribute error blocks, and every matched
attribute's value check delivered a result. -/
theorem attrsLoop_ok_strong (s : XSDSchema) :
    ∀ (na : List (String × String)) (f : Nat) (sa : List XSDAttribute)
      (errs : List String),
      validateAttrsLoop s f na sa = .ok errs →
      (∀ q ∈ na, ∀ a, sa.find? (fun x => x.Name == q.1) = some a →
          ∃ r, validateAttributeValue s f q.2 a = .ok r)
      ∧ errs = na.flatMap (attrEntryErrors s f sa) := by
  intro na
  induction na with
  | nil =>
    intro f sa errs h
    cases f with
    | zero => simp [validateAttrsLoop] at h
    | succ f =>
      simp only [validateAttrsLoop] at h
      refine ⟨by simp, ?_⟩
      simp only [List.flatMap_nil]
      exact (Res.ok.inj h).symm
  | cons p rest ih =>
    intro f sa errs h
    obtain ⟨n, v⟩ := p
    cases f with
    | zero => simp [validateAttrsLoop] at h
    | succ f =>
      simp only [validateAttrsLoop] at h
      cases hfind : sa.find? (fun a => a.Name == n) with
      | some a =>
        rw [hfind] at h
        dsimp only at h
        cases hv : validateAttributeValue s f v a with
        | crash => rw [hv] at h; simp at h
        | fuelOut => rw [hv] at h; simp at h
        | ok o =>
          rw [hv] at h
          have hvS : validateAttributeValue s (f + 1) v a = .ok o := by
            rcases validateAttributeValue_mono s (Nat.le_succ f) v a with hm | hm
            · rw [← hm]; exact hv
            · rw [hv] at hm; simp at hm
          cases hl : validateAttrsLoop s f rest sa with
          | crash => rw [hl] at h; cases o <;> simp at h
          | fuelOut => rw [hl] at h; cases o <;> simp at h
          | ok errs2 =>
            rw [hl] at h
            obtain ⟨ihMem, ihEq⟩ := ih f sa errs2 hl
            have hlift : ∀ q ∈ rest, ∀ a2, sa.find? (fun x => x.Name == q.1) = some a2 →
                ∃ r, validateAttributeValue s (f + 1) q.2 a2 = .ok r := by
              intro q hq a2 hfa
              obtain ⟨r, hr⟩ := ihMem q hq a2 hfa
              refine ⟨r, ?_⟩
              rcases validateAttributeValue_mono s (Nat.le_succ f) q.2 a2 with hm | hm
              · rw [← hm]; exact hr
              · rw [hr] at hm; simp at hm
            have hflat : rest.flatMap (attrEntryErrors s f sa) =
                rest.flatMap (attrEntryErrors s (f + 1) sa) := by
              refine flatMapCongrMem rest _ _ ?_
              intro q hq
              unfold attrEntryErrors
              cases hfa : sa.find? (fun x => x.Name == q.1) with
              | none => rfl
              | some a2 =>
                dsimp only
                obtain ⟨r, hr⟩ := ihMem q hq a2 hfa
                have hrS : validateAttributeValue s (f + 1) q.2 a2 = .ok r := by
                  rcases validateAttributeValue_mono s (Nat.le_succ f) q.2 a2 with hm | hm
                  · rw [← hm]; exact hr
                  · rw [hr] at hm; simp at hm
                rw [hr, hrS]
            constructor
            · intro q hq a2 hfa
              rcases List.mem_cons.mp hq with hq | hq
              · subst hq
                dsimp only at hfa
                have ha2 : a2 = a := Option.some.inj (hfa.symm.trans hfind)
                subst ha2
                exact ⟨o, hvS⟩
              · exact hlift q hq a2 hfa
            · cases o with
              | none =>
                simp only [List.flatMap_cons]
                rw [show errs = errs2 from (Res.ok.inj h).symm, ihEq]
                simp [attrEntryErrors, hfind, hvS, hflat]
              | some m =>
                simp only [List.flatMap_cons]
                rw [show errs = ("attribute \x27" ++ n ++ "\x27: " ++ m) :: errs2 from
                  (Res.ok.inj h).symm, ihEq]
                simp [attrEntryErrors, hfind, hvS, hflat]
      | none =>
        rw [hfind] at h
        dsimp only at h
        cases hl : validateAttrsLoop s f rest sa with
        | crash => rw [hl] at h; simp at h
        | fuelOut => rw [hl] at h; simp at h
        | ok errs2 =>
          rw [hl] at h
          obtain ⟨ihMem, ihEq⟩ := ih f sa errs2 hl
          have hlift : ∀ q ∈ rest, ∀ a2, sa.find? (fun x => x.Name == q.1) = some a2 →
              ∃ r, validateAttributeValue s (f + 1) q.2 a2 = .ok r := by
            intro q hq a2 hfa
            obtain ⟨r, hr⟩ := ihMem q hq a2 hfa
            refine ⟨r, ?_⟩
            rcases validateAttributeValue_mono s (Nat.le_succ f) q.2 a2 with hm | hm
            · rw [← hm]; exact hr
            · rw [hr] at hm; simp at hm
          have hflat : rest.flatMap (attrEntryErrors s f sa) =
              rest.flatMap (attrEntryErrors s (f + 1) sa) := by
            refine flatMapCongrMem rest _ _ ?_
            intro q hq
            unfold attrEntryErrors
            cases hfa : sa.find? (fun x => x.Name == q.1) with
            | none => rfl
            | some a2 =>
              dsimp only
              obtain ⟨r, hr⟩ := ihMem q hq a2 hfa
              have hrS : validateAttributeValue s (f + 1) q.2 a2 = .ok r := by
                rcases validateAttributeValue_mono s (Nat.le_succ f) q.2 a2 with hm | hm
                · rw [← hm]; exact hr
                · rw [hr] at hm; simp at hm
              rw [hr, hrS]
          constructor
          · intro q hq a2 hfa
            rcases List.mem_cons.mp hq with hq | hq
            · subst hq
              dsimp only at hfa
              exact Option.noConfusion (hfa.symm.trans hfind)
            · exact hlift q hq a2 hfa
          · simp only [List.flatMap_cons]
            rw [show errs = ("unexpected attribute \x27" ++ n ++ "\x27") :: errs2 from
              (Res.ok.inj h).symm, ihEq]
            simp [attrEntryErrors, hfind, hflat]

/-- The required-attribute map builder: its key list stays duplicate-free
and contains exactly the names of required schema attributes. -/
theorem requiredAttrNames_aux (attrs : List XSDAttribute) :
    ∀ acc : List String, acc.Nodup →
      (attrs.foldl
        (fun ks a =>
          if a.Use == "required" then (if ks.contains a.Name then ks else ks ++ [a.Name])
          else ks) acc).Nodup
      ∧ ∀ n, (n ∈ attrs.foldl
          (fun ks a =>
            if a.Use == "required" then (if ks.contains a.Name then ks else ks ++ [a.Name])
            else ks) acc ↔
        n ∈ acc ∨ ∃ a ∈ attrs, a.Name = n ∧ a.Use = "required") := by
  induction attrs with
  | nil => intro acc hacc; exact ⟨hacc, by simp⟩
  | cons a rest ih =>
    intro acc hacc
    simp only [List.foldl_cons]
    by_cases hu : a.Use == "required"
    · rw [if_pos hu]
      by_cases hc : acc.contains a.Name
      · rw [if_pos hc]
        obtain ⟨h1, h2⟩ := ih acc hacc
        refine ⟨h1, fun n => ?_⟩
        rw [h2 n]
        constructor
        · rintro (h | h)
          · exact Or.inl h
          · obtain ⟨b, hb, hbn, hbu⟩ := h
            exact Or.inr ⟨b, List.mem_cons_of_mem a hb, hbn, hbu⟩
        · rintro (h | ⟨b, hb, hbn, hbu⟩)
          · exact Or.inl h
          · rcases List.mem_cons.mp hb with hb | hb
            · subst hb
              left
              rw [← hbn]
              simpa using hc
            · exact Or.inr ⟨b, hb, hbn, hbu⟩
      · rw [if_neg hc]
        have hnodup : (acc ++ [a.Name]).Nodup := by
          rw [List.nodup_append]
          refine ⟨hacc, List.nodup_singleton _, ?_⟩
          intro x hx hx1
          rcases List.mem_singleton.mp hx1 with h
          subst h
          exact hc (by simpa using hx)
        obtain ⟨h1, h2⟩ := ih (acc ++ [a.Name]) hnodup
        refine ⟨h1, fun n => ?_⟩
        rw [h2 n]
        simp only [List.mem_append, List.mem_singleton]
        constructor
        · rintro ((h | h) | h)
          · exact Or.inl h
          · exact Or.inr ⟨a, by simp, h.symm, by simpa using hu⟩
          · obtain ⟨b, hb, hbn, hbu⟩ := h
            exact Or.inr ⟨b, by simp [hb], hbn, hbu⟩
        · rintro (h | ⟨b, hb, hbn, hbu⟩)
          · exact Or.inl (Or.inl h)
          · rcases List.mem_cons.mp hb with hb | hb
            · subst hb
              exact Or.inl (Or.inr hbn.symm)
            · exact Or.inr ⟨b, hb, hbn, hbu⟩
    · rw [if_neg hu]
      obtain ⟨h1, h2⟩ := ih acc hacc
      refine ⟨h1, fun n => ?_⟩
      rw [h2 n]
      constructor
      · rintro (h | ⟨b, hb, hbn, hbu⟩)
        · exact Or.inl h
        · exact Or.inr ⟨b, by simp [hb], hbn, hbu⟩
      · rintro (h | ⟨b, hb, hbn, hbu⟩)
        · exact Or.inl h
        · rcases List.mem_cons.mp hb with hb | hb
          · subst hb
            exact absurd (by simp [hbu]) hu
          · exact Or.inr ⟨b, hb, hbn, hbu⟩

theorem requiredAttrNames_nodup (attrs : List XSDAttribute) :
    (requiredAttrNames attrs).Nodup :=
  (requiredAttrNames_aux attrs [] List.nodup_nil).1

theorem requiredAttrNames_mem (attrs : List XSDAttribute) (n : String) :
    n ∈ requiredAttrNames attrs ↔ ∃ a ∈ attrs, a.Name = n ∧ a.Use = "required" := by
  have := (requiredAttrNames_aux attrs [] List.nodup_nil).2 n
  simpa [requiredAttrNames] using this

/-- C5 counterexample: TWO schema attributes, both named `a` and both
required, with no attribute present, produce ONE
missing-required-attribute error, not one per schema attribute — the
required map is keyed by name. -/
theorem c5_counterexample :
    validateAttributes {} 10 []
        [.mk "a" "xs:string" "required" "" "" none, .mk "a" "xs:string" "required" "" "" none] =
      .ok ["missing required attribute \x27a\x27"] := by
  decide

/-- C5 (corrected): a delivered attribute-validation result is exactly the
per-attribute error blocks of the node's attributes (one
unexpected-attribute error for a name no schema attribute carries; the
value-check outcome of the FIRST schema attribute of that name otherwise)
followed by exactly one missing-required-attribute error per DISTINCT
required name matching no present attribute; every matched attribute was
value-checked.  With duplicate-named required schema attributes the errors
collapse by name (the counterexample), so per-attribute uniqueness holds
only per distinct name; unused optional attributes contribute nothing. -/
theorem c5_attribute_checks (s : XSDSchema) (f : Nat)
    (nodeAttrs : List (String × String)) (schemaAttrs : List XSDAttribute)
    (errs : List String)
    (hok : validateAttributes s (f + 1) nodeAttrs schemaAttrs = .ok errs) :
    errs = nodeAttrs.flatMap (attrEntryErrors s f schemaAttrs)
        ++ ((requiredAttrNames schemaAttrs).filter
              (fun n => !(nodeAttrs.any (fun p => p.1 == n)))).map
            (fun n => "missing required attribute \x27" ++ n ++ "\x27")
    ∧ (∀ q ∈ nodeAttrs, ∀ a, schemaAttrs.find? (fun x => x.Name == q.1) = some a →
        ∃ r, validateAttributeValue s f q.2 a = .ok r)
    ∧ (requiredAttrNames schemaAttrs).Nodup
    ∧ (∀ n, n ∈ requiredAttrNames schemaAttrs ↔
        ∃ a ∈ schemaAttrs, a.Name = n ∧ a.Use = "required") := by
  simp only [validateAttributes] at hok
  cases hl : validateAttrsLoop s f nodeAttrs schemaAttrs with
  | crash => rw [hl] at hok; simp at hok
  | fuelOut => rw [hl] at hok; simp at hok
  | ok errs0 =>
    rw [hl] at hok
    obtain ⟨hmem, heq⟩ := attrsLoop_ok_strong s nodeAttrs f schemaAttrs errs0 hl
    refine ⟨?_, hmem, requiredAttrNames_nodup _, fun n => requiredAttrNames_mem _ n⟩
    have hsplit := Res.ok.inj hok
    rw [← hsplit, heq]

/-- C5 witness: the amended theorem applied to one undeclared present
attribute and one unmatched required attribute. -/
theorem c5_attribute_checks_witness :
    (["unexpected attribute \x27x\x27", "missing required attribute \x27id\x27"] : List String) =
      [("x", "1")].flatMap (attrEntryErrors {} 5 [.mk "id" "xs:string" "required" "" "" none])
        ++ ((requiredAttrNames [.mk "id" "xs:string" "required" "" "" none]).filter
              (fun n => !([("x", "1")].any (fun p => p.1 == n)))).map
            (fun n => "missing required attribute \x27" ++ n ++ "\x27") :=
  (c5_attribute_checks {} 5 [("x", "1")] [.mk "id" "xs:string" "required" "" "" none]
      ["unexpected attribute \x27x\x27", "missing required attribute \x27id\x27"]
      (by decide)).1

/-! ## C1: pattern facets -/

/-- C1 counterexample: the source checks pattern facets with
`regexp.MatchString(pattern.Value, value)` — the raw facet string, no
pattern cache, no translation, no anchoring — so a match of a proper
substring suffices.  The value `"xaby"` passes the facet `"ab"` although
the spec-described full-string check (`specFullStringPatternMatch`, built
on `PatternCache.GetPattern`) rejects it. -/
theorem c1_counterexample :
    validateRestrictions "xaby" "xs:string"
        { Base := "xs:string", Pattern := [⟨"ab"⟩] } = none
    ∧ specFullStringPatternMatch "ab" "xaby" = some false
    ∧ goRegexpMatchString "ab" "xaby" = some true :=
  ⟨by decide, by decide, by decide⟩

/-- C1 (corrected): with only pattern facets declared, `validateRestrictions`
is exactly the pattern loop; the loop passes iff every raw facet string
matches the value UNANCHORED (`regexp.MatchString` semantics: some substring
of the value matches, as the third conjunct characterises for anchor-free
patterns); and the first facet that fails to compile is reported as
`invalid pattern: <facet>`. -/
theorem c1_pattern_checks (value bt pat : String) (ps : List XSDValue) :
    (validateRestrictions value bt { Base := bt, Pattern := ps } =
       patternFacetCheck value ps)
    ∧ (patternFacetCheck value ps = none ↔
        ∀ p ∈ ps, goRegexpMatchString p.Value value = some true)
    ∧ (∀ g : GoRegex, parseGoRegex pat = some g →
        g.anchorStart = false → g.anchorEnd = false →
        (goRegexpMatchString pat value = some true ↔
          ∃ pre mid post, value.toList = pre ++ mid ++ post ∧
            reFullMatch g.re mid = true))
    ∧ (∀ ps2 : List XSDValue,
        (∀ q ∈ ps, goRegexpMatchString q.Value value = some true) →
        parseGoRegex pat = none →
        patternFacetCheck value (ps ++ ⟨pat⟩ :: ps2) =
          some ("invalid pattern: " ++ pat)) := by
  refine ⟨?_, ?_, ?_, ?_⟩
  · unfold validateRestrictions
    by_cases hb : bt = "xs:decimal" ∨ bt = "xs:integer" ∨
        bt = "xs:float" ∨ bt = "xs:double" <;>
      simp [hb, boundFacetCheck]
  · induction ps with
    | nil => simp [patternFacetCheck]
    | cons p ps ih =>
      simp only [patternFacetCheck, List.mem_cons, forall_eq_or_imp]
      cases hm : goRegexpMatchString p.Value value with
      | none => simp [hm]
      | some b =>
        cases b with
        | true => simpa [hm] using ih
        | false => simp [hm]
  · intro g hg hs he
    simp only [goRegexpMatchString, hg, Option.some_inj]
    simp only [goRegexMatch, hs, he, Bool.not_false, Bool.true_or,
      List.any_eq_true, List.mem_range, Bool.and_eq_true, decide_eq_true_eq]
    constructor
    · rintro ⟨i, hi, j, hj, -, hm⟩
      refine ⟨value.toList.take i, (value.toList.drop i).take j,
        (value.toList.drop i).drop j, ?_, hm⟩
      rw [List.append_assoc, List.take_append_drop, List.take_append_drop]
    · rintro ⟨pre, mid, post, heq, hm⟩
      have hlen : value.toList.length = pre.length + mid.length + post.length := by
        rw [heq]; simp only [List.length_append]
      refine ⟨pre.length, by omega, mid.length, by omega, ⟨trivial, trivial⟩, ?_⟩
      rw [heq, List.append_assoc, List.drop_left, List.take_left]
      exact hm
  · intro ps2
    induction ps with
    | nil =>
      intro _ hbad
      simp [patternFacetCheck, goRegexpMatchString, hbad]
    | cons q ps ih =>
      intro hall hbad
      have hq : goRegexpMatchString q.Value value = some true := hall q (by simp)
      have ih2 := ih (fun r hr => hall r (by simp [hr])) hbad
      simp [patternFacetCheck, hq, ih2]

/-- C1 witness: the amended theorem at value `"xaby"`, facet list
`["a"]`, probe pattern `"ab"` (compiling, anchor-free) and failing facet
`"("`. -/
theorem c1_pattern_checks_witness :
    (validateRestrictions "xaby" "xs:string"
        { Base := "xs:string", Pattern := [(⟨"a"⟩ : XSDValue)] } =
      patternFacetCheck "xaby" [⟨"a"⟩])
    ∧ (∃ pre mid post, ("xaby".toList : List Char) = pre ++ mid ++ post ∧
        reFullMatch (RE.seq (.char 'a') (.seq (.char 'b') .emp)) mid = true)
    ∧ patternFacetCheck "xaby" ([⟨"a"⟩] ++ (⟨"("⟩ : XSDValue) :: []) =
        some ("invalid pattern: " ++ "(") := by
  have h := c1_pattern_checks "xaby" "xs:string" "ab" [⟨"a"⟩]
  have h2 := c1_pattern_checks "xaby" "xs:string" "(" [⟨"a"⟩]
  refine ⟨h.1, ?_, ?_⟩
  · exact (h.2.2.1 ⟨false, false, RE.seq (.char 'a') (.seq (.char 'b') .emp)⟩
      (by decide) rfl rfl).mp (by decide)
  · exact h2.2.2.2 [] (by decide) (by decide)

/-! ## Claim C9: termination -/

/-- `Res.andThen` cannot run out of fuel unless a component does. -/
theorem resAndThenNeFuelOut {α β : Type} {x : Res α} {k : α → Res β}
    (hx : x ≠ .fuelOut) (hk : ∀ a, k a ≠ .fuelOut) :
    Res.andThen x k ≠ .fuelOut := by
  cases x with
  | ok a => exact hk a
  | crash => simp [Res.andThen]
  | fuelOut => exact absurd rfl hx

set_option maxHeartbeats 1000000 in
/-- Whether the switch hits a built-in arm depends only on the type name. -/
theorem validateBuiltinBaseType_isSome (v t : String) :
    (validateBuiltinBaseType v t).isSome = isBuiltinBaseType t := by
  unfold isBuiltinBaseType validateBuiltinBaseType
  simp only [apply_ite Option.isSome, Option.isSome_some, Option.isSome_none]

/-- A terminating base-type chain makes `validateBaseType` terminate. -/
theorem validateBaseType_terminates (s : XSDSchema) (v : String) :
    ∀ (n : Nat) (t : String), typeChainFuel s n t = true →
      ∃ m, validateBaseType s m v t ≠ .fuelOut := by
  intro n
  induction n with
  | zero => intro t h; simp [typeChainFuel] at h
  | succ n ih =>
    intro t h
    rw [typeChainFuel] at h
    by_cases hb : isBuiltinBaseType t = true
    · have hs : (validateBuiltinBaseType v t).isSome = true := by
        rw [validateBuiltinBaseType_isSome]; exact hb
      obtain ⟨r, hr⟩ := Option.isSome_iff_exists.mp hs
      refine ⟨0 + 1, ?_⟩
      simp only [validateBaseType, hr]
      simp
    · rw [if_neg hb] at h
      have hbn : validateBuiltinBaseType v t = none := by
        rw [← Option.not_isSome_iff_eq_none, validateBuiltinBaseType_isSome]
        exact fun hc => hb hc
      cases hf : findSimpleType s t with
      | none =>
        refine ⟨0 + 1, ?_⟩
        simp only [validateBaseType, hbn, hf]
        simp
      | some st =>
        rw [hf] at h
        dsimp only at h
        cases hr : st.Restriction with
        | none =>
          refine ⟨0 + 1, ?_⟩
          simp only [validateBaseType, hbn, hf, hr]
          simp
        | some r =>
          rw [hr] at h
          dsimp only at h
          obtain ⟨m, hm⟩ := ih r.Base h
          refine ⟨m + 1 + 1, ?_⟩
          have h2 : validateBaseType s (m + 1 + 1) v t =
              validateType s (m + 1) v r.Base (some r) := by
            simp only [validateBaseType, hbn, hf, hr]
          rw [h2]
          simp only [validateType]
          cases hv : validateBaseType s m v r.Base with
          | ok o => cases o <;> simp
          | crash => simp
          | fuelOut => exact absurd hv hm

/-- A terminating base-type chain makes `validateType` terminate. -/
theorem validateType_terminates (s : XSDSchema)
    (HT : ∀ t, TypeChainTerminates s t) (v t : String)
    (ro : Option XSDRestriction) :
    ∃ m, validateType s m v t ro ≠ .fuelOut := by
  obtain ⟨n, hn⟩ := HT t
  obtain ⟨m, hm⟩ := validateBaseType_terminates s v n t hn
  refine ⟨m + 1, ?_⟩
  simp only [validateType]
  cases hv : validateBaseType s m v t with
  | ok o => cases o <;> cases ro <;> simp
  | crash => simp
  | fuelOut => exact absurd hv hm

/-- `validateAttributeValue` terminates under chain acyclicity. -/
theorem validateAttributeValue_terminates (s : XSDSchema)
    (HT : ∀ t, TypeChainTerminates s t) (v : String) (a : XSDAttribute) :
    ∃ m, validateAttributeValue s m v a ≠ .fuelOut := by
  by_cases ht : a.Typ ≠ ""
  · obtain ⟨m, hm⟩ := validateType_terminates s HT v a.Typ none
    refine ⟨m + 1, ?_⟩
    simp only [validateAttributeValue]
    rw [if_pos ht]
    exact hm
  · cases hst : a.SimpleType with
    | none =>
      refine ⟨0 + 1, ?_⟩
      simp only [validateAttributeValue, hst]
      rw [if_neg ht]
      simp
    | some st =>
      cases hr : st.Restriction with
      | none =>
        refine ⟨0 + 1, ?_⟩
        simp only [validateAttributeValue, hst, hr]
        rw [if_neg ht]
        simp
      | some r =>
        obtain ⟨m, hm⟩ := validateType_terminates s HT v r.Base (some r)
        refine ⟨m + 1, ?_⟩
        simp only [validateAttributeValue, hst, hr]
        rw [if_neg ht]
        exact hm

/-- `validateElementContent` terminates under chain acyclicity (it may
crash, cf. C10, but it cannot run out of fuel). -/
theorem validateElementContent_terminates (s : XSDSchema)
    (HT : ∀ t, TypeChainTerminates s t) (c : String) (e : XSDElement) :
    ∃ m, validateElementContent s m c e ≠ .fuelOut := by
  cases hst : e.SimpleType with
  | some st =>
    cases hr : st.Restriction with
    | none =>
      refine ⟨0 + 1, ?_⟩
      simp only [validateElementContent, hst, hr]
      simp
    | some r =>
      obtain ⟨m, hm⟩ := validateType_terminates s HT c r.Base (some r)
      refine ⟨m + 1, ?_⟩
      simp only [validateElementContent, hst, hr]
      exact hm
  | none =>
    by_cases ht : e.Typ ≠ ""
    · obtain ⟨m, hm⟩ := validateType_terminates s HT c e.Typ none
      refine ⟨m + 1, ?_⟩
      simp only [validateElementContent, hst]
      rw [if_pos ht]
      exact hm
    · refine ⟨0 + 1, ?_⟩
      simp only [validateElementContent, hst]
      rw [if_neg ht]
      simp

/-- The attribute loop terminates under chain acyclicity. -/
theorem validateAttrsLoop_terminates (s : XSDSchema)
    (HT : ∀ t, TypeChainTerminates s t) (sa : List XSDAttribute) :
    ∀ na : List (String × String), ∃ m, validateAttrsLoop s m na sa ≠ .fuelOut := by
  intro na
  induction na with
  | nil => exact ⟨0 + 1, by simp [validateAttrsLoop]⟩
  | cons p rest ih =>
    obtain ⟨name, value⟩ := p
    obtain ⟨m1, hm1⟩ := ih
    cases hf : sa.find? (fun a => a.Name == name) with
    | none =>
      refine ⟨m1 + 1, ?_⟩
      simp only [validateAttrsLoop, hf]
      cases hl : validateAttrsLoop s m1 rest sa with
      | ok errs => simp
      | crash => simp
      | fuelOut => exact absurd hl hm1
    | some sattr =>
      obtain ⟨m2, hm2⟩ := validateAttributeValue_terminates s HT value sattr
      refine ⟨max m1 m2 + 1, ?_⟩
      simp only [validateAttrsLoop, hf]
      have hv2 : validateAttributeValue s (max m1 m2) value sattr =
          validateAttributeValue s m2 value sattr := by
        rcases validateAttributeValue_mono s (Nat.le_max_right m1 m2) value sattr
          with he | hbad
        · exact he.symm
        · exact absurd hbad hm2
      have hl2 : validateAttrsLoop s (max m1 m2) rest sa =
          validateAttrsLoop s m1 rest sa := by
        rcases validateAttrsLoop_mono s (Nat.le_max_left m1 m2) rest sa with he | hbad
        · exact he.symm
        · exact absurd hbad hm1
      rw [hv2, hl2]
      cases hv : validateAttributeValue s m2 value sattr with
      | ok o =>
        cases o <;>
          (cases hl : validateAttrsLoop s m1 rest sa with
           | ok errs => simp
           | crash => simp
           | fuelOut => exact absurd hl hm1)
      | crash => simp
      | fuelOut => exact absurd hv hm2

/-- `validateAttributes` terminates under chain acyclicity. -/
theorem validateAttributes_terminates (s : XSDSchema)
    (HT : ∀ t, TypeChainTerminates s t) (na : List (String × String))
    (sa : List XSDAttribute) :
    ∃ m, validateAttributes s m na sa ≠ .fuelOut := by
  obtain ⟨m, hm⟩ := validateAttrsLoop_terminates s HT sa na
  refine ⟨m + 1, ?_⟩
  simp only [validateAttributes]
  cases hl : validateAttrsLoop s m na sa with
  | ok errs => simp
  | crash => simp
  | fuelOut => exact absurd hl hm

/-- The sequence child loop terminates when every child's recursive
validation does. -/
theorem validateSeqChildren_terminates (s : XSDSchema) (sq : XSDSequence) :
    ∀ children : List XMLNode,
      (∀ c ∈ children, ∀ e : XSDElement, ∃ n, validateElement s n c e ≠ .fuelOut) →
      ∃ m, validateSeqChildren s m children sq ≠ .fuelOut := by
  intro children
  induction children with
  | nil => exact fun _ => ⟨0 + 1, by simp [validateSeqChildren]⟩
  | cons child rest ih =>
    intro hch
    obtain ⟨m1, hm1⟩ := ih (fun c hc e => hch c (by simp [hc]) e)
    cases hexp : expectedChild sq.Elements child.Name with
    | none =>
      refine ⟨m1 + 1, ?_⟩
      simp only [validateSeqChildren, hexp]
      cases hl : validateSeqChildren s m1 rest sq with
      | ok errs => simp
      | crash => simp
      | fuelOut => exact absurd hl hm1
    | some childDef =>
      obtain ⟨m2, hm2⟩ := hch child (by simp) childDef
      refine ⟨max m1 m2 + 1, ?_⟩
      simp only [validateSeqChildren, hexp]
      have hv2 : validateElement s (max m1 m2) child childDef =
          validateElement s m2 child childDef := by
        rcases validateElement_mono s (Nat.le_max_right m1 m2) child childDef
          with he | hbad
        · exact he.symm
        · exact absurd hbad hm2
      have hl2 : validateSeqChildren s (max m1 m2) rest sq =
          validateSeqChildren s m1 rest sq := by
        rcases validateSeqChildren_mono s (Nat.le_max_left m1 m2) rest sq with he | hbad
        · exact he.symm
        · exact absurd hbad hm1
      rw [hv2, hl2]
      cases hv : validateElement s m2 child childDef with
      | ok errs =>
        cases hl : validateSeqChildren s m1 rest sq with
        | ok errs2 => simp
        | crash => simp
        | fuelOut => exact absurd hl hm1
      | crash => simp
      | fuelOut => exact absurd hv hm2

/-- `validateSequence` terminates when every child's validation does. -/
theorem validateSequence_terminates (s : XSDSchema) (sq : XSDSequence)
    (children : List XMLNode)
    (hch : ∀ c ∈ children, ∀ e : XSDElement, ∃ n, validateElement s n c e ≠ .fuelOut) :
    ∃ m, validateSequence s m children sq ≠ .fuelOut := by
  obtain ⟨m, hm⟩ := validateSeqChildren_terminates s sq children hch
  refine ⟨m + 1, ?_⟩
  simp only [validateSequence]
  cases hl : validateSeqChildren s m children sq with
  | ok errs => simp
  | crash => simp
  | fuelOut => exact absurd hl hm

/-- The per-child alternative loop of `validateChoice` terminates when the
child's recursive validation does. -/
theorem choiceAltLoop_terminates (s : XSDSchema) (child : XMLNode)
    (hc : ∀ e : XSDElement, ∃ n, validateElement s n child e ≠ .fuelOut) :
    ∀ alts : List XSDElement, ∃ m, choiceAltLoop s m child alts ≠ .fuelOut := by
  intro alts
  induction alts with
  | nil => exact ⟨0 + 1, by simp [choiceAltLoop]⟩
  | cons alt rest ih =>
    obtain ⟨m1, hm1⟩ := ih
    cases hres : (if alt.Ref ≠ "" then resolveElementRef s alt.Ref else Except.ok alt) with
    | error msg =>
      refine ⟨m1 + 1, ?_⟩
      simp only [choiceAltLoop, hres]
      cases hl : choiceAltLoop s m1 child rest with
      | ok p => simp
      | crash => simp
      | fuelOut => exact absurd hl hm1
    | ok e2 =>
      by_cases hn : validateElementNameAndNS s child e2 = true
      · obtain ⟨m2, hm2⟩ := hc e2
        refine ⟨m2 + 1, ?_⟩
        simp only [choiceAltLoop, hres]
        rw [if_pos hn]
        cases hv : validateElement s m2 child e2 with
        | ok errs => simp
        | crash => simp
        | fuelOut => exact absurd hv hm2
      · refine ⟨m1 + 1, ?_⟩
        simp only [choiceAltLoop, hres]
        rw [if_neg hn]
        exact hm1

/-- The outer child loop of `validateChoice` terminates when every child's
recursive validation does. -/
theorem choiceChildLoop_terminates (s : XSDSchema) (alts : List XSDElement) :
    ∀ children : List XMLNode,
      (∀ c ∈ children, ∀ e : XSDElement, ∃ n, validateElement s n c e ≠ .fuelOut) →
      ∃ m, choiceChildLoop s m children alts ≠ .fuelOut := by
  intro children
  induction children with
  | nil => exact fun _ => ⟨0 + 1, by simp [choiceChildLoop]⟩
  | cons child rest ih =>
    intro hch
    obtain ⟨m1, hm1⟩ := ih (fun c hc e => hch c (by simp [hc]) e)
    obtain ⟨m2, hm2⟩ := choiceAltLoop_terminates s child (hch child (by simp)) alts
    refine ⟨max m1 m2 + 1, ?_⟩
    simp only [choiceChildLoop]
    have hv2 : choiceAltLoop s (max m1 m2) child alts =
        choiceAltLoop s m2 child alts := by
      rcases choiceAltLoop_mono s (Nat.le_max_right m1 m2) child alts with he | hbad
      · exact he.symm
      · exact absurd hbad hm2
    have hl2 : choiceChildLoop s (max m1 m2) rest alts =
        choiceChildLoop s m1 rest alts := by
      rcases choiceChildLoop_mono s (Nat.le_max_left m1 m2) rest alts with he | hbad
      · exact he.symm
      · exact absurd hbad hm1
    rw [hv2, hl2]
    cases hv : choiceAltLoop s m2 child alts with
    | ok p =>
      obtain ⟨found, errs⟩ := p
      cases hl : choiceChildLoop s m1 rest alts with
      | ok q => simp
      | crash => simp
      | fuelOut => exact absurd hl hm1
    | crash => simp
    | fuelOut => exact absurd hv hm2

/-- `validateChoice` terminates when every child's validation does
(strong induction on the nesting depth of the choice group). -/
theorem validateChoice_terminates (s : XSDSchema) (children : List XMLNode)
    (hch : ∀ c ∈ children, ∀ e : XSDElement, ∃ n, validateElement s n c e ≠ .fuelOut) :
    ∀ c : XSDChoice, ∃ m, validateChoice s m children c ≠ .fuelOut := by
  suffices H : ∀ d : Nat, ∀ c : XSDChoice, choiceDepth c ≤ d →
      ∃ m, validateChoice s m children c ≠ .fuelOut from
    fun c => H (choiceDepth c) c le_rfl
  intro d
  induction d with
  | zero =>
    intro c hd
    cases c with
    | mk mo mx co es =>
      cases co with
      | some c2 => simp [choiceDepth] at hd
      | none =>
        cases hel : es with
        | nil =>
          refine ⟨0 + 1, ?_⟩
          rw [validateChoice.eq_2]
          simp [XSDChoice.Choice, XSDChoice.Elements, hel]
        | cons a restAlts =>
          obtain ⟨m1, hm1⟩ := choiceChildLoop_terminates s (a :: restAlts) children hch
          refine ⟨m1 + 1, ?_⟩
          rw [validateChoice.eq_2]
          dsimp only [XSDChoice.Choice, XSDChoice.Elements]
          cases hl : choiceChildLoop s m1 children (a :: restAlts) with
          | ok p => obtain ⟨vc, errs⟩ := p; simp
          | crash => simp
          | fuelOut => exact absurd hl hm1
  | succ d ihd =>
    intro c hd
    cases c with
    | mk mo mx co es =>
      cases co with
      | none =>
        cases hel : es with
        | nil =>
          refine ⟨0 + 1, ?_⟩
          rw [validateChoice.eq_2]
          simp [XSDChoice.Choice, XSDChoice.Elements, hel]
        | cons a restAlts =>
          obtain ⟨m1, hm1⟩ := choiceChildLoop_terminates s (a :: restAlts) children hch
          refine ⟨m1 + 1, ?_⟩
          rw [validateChoice.eq_2]
          dsimp only [XSDChoice.Choice, XSDChoice.Elements]
          cases hl : choiceChildLoop s m1 children (a :: restAlts) with
          | ok p => obtain ⟨vc, errs⟩ := p; simp
          | crash => simp
          | fuelOut => exact absurd hl hm1
      | some c2 =>
        have hd2 : choiceDepth c2 ≤ d := by
          simp [choiceDepth] at hd
          omega
        obtain ⟨m1, hm1⟩ := ihd c2 hd2
        obtain ⟨m2, hm2⟩ := choiceChildLoop_terminates s es children hch
        refine ⟨max m1 m2 + 1, ?_⟩
        rw [validateChoice.eq_2]
        dsimp only [XSDChoice.Choice, XSDChoice.Elements]
        have hn2 : validateChoice s (max m1 m2) children c2 =
            validateChoice s m1 children c2 := by
          rcases validateChoice_mono s (Nat.le_max_left m1 m2) children c2 with he | hbad
          · exact he.symm
          · exact absurd hbad hm1
        have hl2 : choiceChildLoop s (max m1 m2) children es =
            choiceChildLoop s m2 children es := by
          rcases choiceChildLoop_mono s (Nat.le_max_right m1 m2) children es with he | hbad
          · exact he.symm
          · exact absurd hbad hm2
        rw [hn2]
        cases hv : validateChoice s m1 children c2 with
        | ok nestedErrs =>
          cases hes : es with
          | nil => simp
          | cons a restAlts =>
            rw [hes] at hl2 hm2
            rw [hl2]
            cases hl : choiceChildLoop s m2 children (a :: restAlts) with
            | ok p => obtain ⟨vc, errs⟩ := p; simp
            | crash => simp
            | fuelOut => exact absurd hl hm2
        | crash => simp
        | fuelOut => exact absurd hv hm1

/-- Under acyclic element-`ref` chains and acyclic restriction base-type
chains, `validateElement` terminates on every finite XML tree (strong
induction on the tree size, with an inner induction on the ref-chain
budget). -/
theorem validateElement_terminates (s : XSDSchema)
    (HR : ∀ e, RefTerminates s e) (HT : ∀ t, TypeChainTerminates s t) :
    ∀ (node : XMLNode) (e : XSDElement), ∃ n, validateElement s n node e ≠ .fuelOut := by
  suffices H : ∀ k : Nat, ∀ node : XMLNode, sizeOf node ≤ k →
      ∀ e : XSDElement, ∃ n, validateElement s n node e ≠ .fuelOut from
    fun node e => H (sizeOf node) node le_rfl e
  intro k
  induction k with
  | zero =>
    intro node hk
    exfalso
    cases node with
    | mk a b c d ch =>
      simp only [XMLNode.mk.sizeOf_spec] at hk
      omega
  | succ k ihk =>
    intro node hk e
    have hch : ∀ c ∈ node.Children, ∀ e2 : XSDElement,
        ∃ n, validateElement s n c e2 ≠ .fuelOut := by
      intro c hc e2
      refine ihk c ?_ e2
      have h1 : sizeOf c < sizeOf node.Children := List.sizeOf_lt_of_mem hc
      have h2 : sizeOf node.Children < sizeOf node := by
        cases node with
        | mk a b at0 ct0 ch0 =>
          simp only [XMLNode.Children, XMLNode.mk.sizeOf_spec]
          omega
      omega
    have hattrsO : ∀ ats : List XSDAttribute, ∃ n, ∀ g, n ≤ g →
        validateAttributes s g node.Attributes ats ≠ .fuelOut := by
      intro ats
      obtain ⟨n, hn⟩ := validateAttributes_terminates s HT node.Attributes ats
      refine ⟨n, fun g hg => ?_⟩
      rcases validateAttributes_mono s hg node.Attributes ats with he | hbad
      · rw [← he]; exact hn
      · exact absurd hbad hn
    have hcontO : ∀ E : XSDElement, ∃ n, ∀ g, n ≤ g →
        validateElementContent s g node.Content E ≠ .fuelOut := by
      intro E
      obtain ⟨n, hn⟩ := validateElementContent_terminates s HT node.Content E
      refine ⟨n, fun g hg => ?_⟩
      rcases validateElementContent_mono s hg node.Content E with he | hbad
      · rw [← he]; exact hn
      · exact absurd hbad hn
    have hseqO : ∀ osq : Option XSDSequence, ∃ n, ∀ g, n ≤ g → ∀ sq, osq = some sq →
        validateSequence s g node.Children sq ≠ .fuelOut := by
      intro osq
      cases osq with
      | none => exact ⟨0, fun g _ sq h => by cases h⟩
      | some sq =>
        obtain ⟨n, hn⟩ := validateSequence_terminates s sq node.Children hch
        refine ⟨n, fun g hg sq2 h => ?_⟩
        cases h
        rcases validateSequence_mono s hg node.Children sq with he | hbad
        · rw [← he]; exact hn
        · exact absurd hbad hn
    have hchoO : ∀ oc : Option XSDChoice, ∃ n, ∀ g, n ≤ g → ∀ c, oc = some c →
        validateChoice s g node.Children c ≠ .fuelOut := by
      intro oc
      cases oc with
      | none => exact ⟨0, fun g _ c h => by cases h⟩
      | some c =>
        obtain ⟨n, hn⟩ := validateChoice_terminates s node.Children hch c
        refine ⟨n, fun g hg c2 h => ?_⟩
        cases h
        rcases validateChoice_mono s hg node.Children c with he | hbad
        · rw [← he]; exact hn
        · exact absurd hbad hn
    have hmain : ∀ e2 : XSDElement, e2.Ref = "" →
        ∃ n, validateElement s n node e2 ≠ .fuelOut := by
      intro e2 hre
      by_cases hnm : validateElementNameAndNS s node e2 = true
      case neg =>
        have hnm2 : validateElementNameAndNS s node e2 = false := by
          revert hnm
          cases validateElementNameAndNS s node e2 <;> simp
        refine ⟨0 + 1, ?_⟩
        rw [validateElement.eq_2]
        rw [if_neg (by simp [hre])]
        rw [if_pos (by simp [hnm2])]
        simp
      case pos =>
        cases hct0 : e2.ComplexType with
        | some ct0 =>
          obtain ⟨nA, hnA⟩ := hattrsO ct0.Attributes
          obtain ⟨nC, hnC⟩ := hcontO e2
          obtain ⟨nS, hnS⟩ := hseqO ct0.Sequence
          obtain ⟨nH, hnH⟩ := hchoO ct0.Choice
          refine ⟨max (max nA nC) (max nS nH) + 1, ?_⟩
          rw [validateElement.eq_2]
          rw [if_neg (by simp [hre])]
          rw [if_neg (by simp [hnm])]
          dsimp only
          rw [hct0]
          dsimp only
          rw [hct0]
          dsimp only
          refine resAndThenNeFuelOut (hnA _ (by omega)) fun errs1 =>
            resAndThenNeFuelOut ?_ fun errs2 =>
            resAndThenNeFuelOut ?_ fun errs3 =>
            resAndThenNeFuelOut ?_ fun errs4 => by simp
          · by_cases hco : node.Content ≠ ""
            · rw [if_pos hco]
              cases hv : validateElementContent s (max (max nA nC) (max nS nH))
                  node.Content e2 with
              | ok o => cases o <;> simp
              | crash => simp
              | fuelOut => exact absurd hv (hnC _ (by omega))
            · rw [if_neg hco]; simp
          · cases hsq : ct0.Sequence with
            | none => simp
            | some sq => exact hnS _ (by omega) sq hsq
          · cases hcc : ct0.Choice with
            | none => simp
            | some cc => exact hnH _ (by omega) cc hcc
        | none =>
          by_cases ht0 : e2.Typ ≠ ""
          case neg =>
            obtain ⟨nC, hnC⟩ := hcontO e2
            refine ⟨nC + 1, ?_⟩
            rw [validateElement.eq_2]
            rw [if_neg (by simp [hre])]
            rw [if_neg (by simp [hnm])]
            dsimp only
            rw [hct0]
            dsimp only
            rw [if_neg ht0]
            rw [hct0]
            dsimp only
            refine resAndThenNeFuelOut (by simp) fun errs1 =>
              resAndThenNeFuelOut ?_ fun errs2 =>
              resAndThenNeFuelOut (by simp) fun errs3 =>
              resAndThenNeFuelOut (by simp) fun errs4 => by simp
            by_cases hco : node.Content ≠ ""
            · rw [if_pos hco]
              cases hv : validateElementContent s nC node.Content e2 with
              | ok o => cases o <;> simp
              | crash => simp
              | fuelOut => exact absurd hv (hnC _ le_rfl)
            · rw [if_neg hco]; simp
          case pos =>
            cases hfc : findComplexType s e2.Typ with
            | none =>
              obtain ⟨nC, hnC⟩ := hcontO e2
              refine ⟨nC + 1, ?_⟩
              rw [validateElement.eq_2]
              rw [if_neg (by simp [hre])]
              rw [if_neg (by simp [hnm])]
              dsimp only
              rw [hct0]
              dsimp only
              rw [if_pos ht0, hfc]
              dsimp only
              rw [hct0]
              dsimp only
              refine resAndThenNeFuelOut (by simp) fun errs1 =>
                resAndThenNeFuelOut ?_ fun errs2 =>
                resAndThenNeFuelOut (by simp) fun errs3 =>
                resAndThenNeFuelOut (by simp) fun errs4 => by simp
              by_cases hco : node.Content ≠ ""
              · rw [if_pos hco]
                cases hv : validateElementContent s nC node.Content e2 with
                | ok o => cases o <;> simp
                | crash => simp
                | fuelOut => exact absurd hv (hnC _ le_rfl)
              · rw [if_neg hco]; simp
            | some ct =>
              obtain ⟨nA, hnA⟩ := hattrsO ct.Attributes
              obtain ⟨nC, hnC⟩ := hcontO (e2.withComplexType (some ct))
              obtain ⟨nS, hnS⟩ := hseqO ct.Sequence
              obtain ⟨nH, hnH⟩ := hchoO ct.Choice
              refine ⟨max (max nA nC) (max nS nH) + 1, ?_⟩
              rw [validateElement.eq_2]
              rw [if_neg (by simp [hre])]
              rw [if_neg (by simp [hnm])]
              dsimp only
              rw [hct0]
              dsimp only
              rw [if_pos ht0, hfc]
              dsimp only
              rw [withComplexType_ComplexType]
              dsimp only
              refine resAndThenNeFuelOut (hnA _ (by omega)) fun errs1 =>
                resAndThenNeFuelOut ?_ fun errs2 =>
                resAndThenNeFuelOut ?_ fun errs3 =>
                resAndThenNeFuelOut ?_ fun errs4 => by simp
              · by_cases hco : node.Content ≠ ""
                · rw [if_pos hco]
                  cases hv : validateElementContent s (max (max nA nC) (max nS nH))
                      node.Content (e2.withComplexType (some ct)) with
                  | ok o => cases o <;> simp
                  | crash => simp
                  | fuelOut => exact absurd hv (hnC _ (by omega))
                · rw [if_neg hco]; simp
              · cases hsq : ct.Sequence with
                | none => simp
                | some sq => exact hnS _ (by omega) sq hsq
              · cases hcc : ct.Choice with
                | none => simp
                | some cc => exact hnH _ (by omega) cc hcc
    have haux : ∀ m : Nat, ∀ e2 : XSDElement, (refChainFuel s m e2).isSome = true →
        ∃ n, validateElement s n node e2 ≠ .fuelOut := by
      intro m
      induction m with
      | zero => intro e2 h0; simp [refChainFuel] at h0
      | succ m ihm =>
        intro e2 h0
        by_cases hr : e2.Ref ≠ ""
        · rw [refChainFuel] at h0
          rw [if_pos hr] at h0
          cases hres : resolveElementRef s e2.Ref with
          | error msg =>
            refine ⟨0 + 1, ?_⟩
            rw [validateElement.eq_2]
            rw [if_pos hr, hres]
            simp
          | ok e3 =>
            rw [hres] at h0
            dsimp only at h0
            obtain ⟨n3, hn3⟩ := ihm e3 h0
            refine ⟨n3 + 1, ?_⟩
            rw [validateElement.eq_2]
            rw [if_pos hr, hres]
            exact hn3
        · exact hmain e2 (not_ne_iff.mp hr)
    obtain ⟨m, hm⟩ := HR e
    exact haux m e hm

/-- C9 (confirmed): under acyclicity of the element-`ref` references
(`RefTerminates`) and of the simple-type restriction base-type chains
(`TypeChainTerminates`), `validateElement` terminates (some fuel suffices)
on every finite XML tree; and without the precondition a single call can
run unbounded: the self-referential top-level element of `selfRefSchema`
makes `validateElement` exhaust EVERY fuel budget on EVERY node, and the
self-based simple type `T` of `loopTypeSchema` makes `validateBaseType`
exhaust every budget on every value. -/
theorem c9_termination (s : XSDSchema)
    (HR : ∀ e, RefTerminates s e) (HT : ∀ t, TypeChainTerminates s t) :
    (∀ (node : XMLNode) (e : XSDElement), ∃ n, validateElement s n node e ≠ .fuelOut)
    ∧ (∀ (n : Nat) (node : XMLNode),
        validateElement selfRefSchema n node selfRefElem = .fuelOut)
    ∧ (∀ (n : Nat) (v : String), validateBaseType loopTypeSchema n v "T" = .fuelOut) := by
  refine ⟨validateElement_terminates s HR HT, ?_, ?_⟩
  · intro n
    induction n with
    | zero => intro node; rfl
    | succ n ih =>
      intro node
      rw [validateElement.eq_2]
      rw [if_pos (by decide : selfRefElem.Ref ≠ "")]
      rw [show resolveElementRef selfRefSchema selfRefElem.Ref = .ok selfRefElem from rfl]
      exact ih node
  · have key : ∀ n : Nat,
        (∀ v, validateBaseType loopTypeSchema n v "T" = .fuelOut) ∧
        (∀ v, validateType loopTypeSchema n v "T"
          (some { Base := "T" }) = .fuelOut) := by
      intro n
      induction n with
      | zero => exact ⟨fun v => rfl, fun v => rfl⟩
      | succ n ih =>
        refine ⟨fun v => ?_, fun v => ?_⟩
        · simp only [validateBaseType]
          rw [show validateBuiltinBaseType v "T" = none from rfl]
          rw [show findSimpleType loopTypeSchema "T" =
            some (XSDSimpleType.mk "T" (some { Base := "T" }) none none) from rfl]
          dsimp only [XSDSimpleType.Restriction]
          exact ih.2 v
        · simp only [validateType]
          rw [ih.1 v]
    exact fun n v => (key n).1 v

/-- C9 witness: the acyclicity hypotheses hold for the empty schema (every
ref chain fails to resolve in one step, every type chain bottoms out in one
step), so validation of a small document terminates. -/
theorem c9_termination_witness :
    ∃ n, validateElement ({} : XSDSchema) n (XMLNode.mk "r" "" [] "" [])
      (XSDElement.mk "r" "" "" "" "" "" none none) ≠ .fuelOut := by
  refine (c9_termination {} (fun e => ⟨0 + 1, ?_⟩) (fun t => ⟨0 + 1, ?_⟩)).1
    (XMLNode.mk "r" "" [] "" []) (XSDElement.mk "r" "" "" "" "" "" none none)
  · simp only [refChainFuel]
    by_cases h : e.Ref ≠ ""
    · rw [if_pos h]
      rw [show resolveElementRef {} e.Ref =
        .error ("referenced element not found: " ++ e.Ref) from rfl]
      rfl
    · rw [if_neg h]
      rfl
  · simp only [typeChainFuel]
    by_cases h : isBuiltinBaseType t = true
    · rw [if_pos h]
    · rw [if_neg h]
      rw [show findSimpleType {} t = none from rfl]

/-! ## Claim C8: determinism -/

/-- `List.any` only depends on the membership of the list. -/
theorem permAnyEq {α : Type} {l1 l2 : List α} (h : l1.Perm l2) (p : α → Bool) :
    l1.any p = l2.any p := by
  cases h2 : l2.any p with
  | true =>
    obtain ⟨x, hx, hpx⟩ := List.any_eq_true.mp h2
    exact List.any_eq_true.mpr ⟨x, h.mem_iff.mpr hx, hpx⟩
  | false =>
    cases h1 : l1.any p with
    | false => rfl
    | true =>
      obtain ⟨x, hx, hpx⟩ := List.any_eq_true.mp h1
      have h3 := List.any_eq_true.mpr ⟨x, h.mem_iff.mp hx, hpx⟩
      rw [h2] at h3
      cases h3

/-- One fuel step of `Validate` either agrees or ran out. -/
theorem validateStep (s : XSDSchema) (p : Except String XMLNode) (m : Nat) :
    Validate s m p = Validate s (m + 1) p ∨ Validate s m p = .fuelOut := by
  cases p with
  | error err => left; rfl
  | ok node =>
    simp only [Validate]
    cases hf : findSchemaElementNS s node.Name node.Namespace with
    | none => left; rfl
    | some root =>
      dsimp only
      rcases (validatorStepMono s m).1 node root with h | h
      · left; rw [h]
      · right; rw [h]

/-- Permuting the node attribute list permutes the delivered error list of
`validateAttributes` (value checks and the collapsed required map are
order-independent; only the per-attribute blocks move). -/
theorem validateAttributesPerm (s : XSDSchema)
    (na na2 : List (String × String)) (sa : List XSDAttribute)
    (f1 f2 : Nat) (errs1 errs2 : List String) (hp : na.Perm na2)
    (h1 : validateAttributes s f1 na sa = .ok errs1)
    (h2 : validateAttributes s f2 na2 sa = .ok errs2) :
    errs1.Perm errs2 := by
  cases f1 with
  | zero => simp [validateAttributes] at h1
  | succ g1 =>
    cases f2 with
    | zero => simp [validateAttributes] at h2
    | succ g2 =>
      simp only [validateAttributes] at h1 h2
      cases hl1 : validateAttrsLoop s g1 na sa with
      | crash => rw [hl1] at h1; simp at h1
      | fuelOut => rw [hl1] at h1; simp at h1
      | ok base1 =>
        rw [hl1] at h1
        dsimp only at h1
        cases hl2 : validateAttrsLoop s g2 na2 sa with
        | crash => rw [hl2] at h2; simp at h2
        | fuelOut => rw [hl2] at h2; simp at h2
        | ok base2 =>
          rw [hl2] at h2
          dsimp only at h2
          obtain ⟨hmem1, hbase1⟩ := attrsLoop_ok_strong s na g1 sa base1 hl1
          obtain ⟨hmem2, hbase2⟩ := attrsLoop_ok_strong s na2 g2 sa base2 hl2
          have hent : ∀ q ∈ na, attrEntryErrors s g1 sa q = attrEntryErrors s g2 sa q := by
            intro q hq
            cases hfind : sa.find? (fun x => x.Name == q.1) with
            | none => simp [attrEntryErrors, hfind]
            | some a =>
              obtain ⟨r1, hr1⟩ := hmem1 q hq a hfind
              obtain ⟨r2, hr2⟩ := hmem2 q (hp.mem_iff.mp hq) a hfind
              have hr12 : r1 = r2 := resComputesUnique
                (fun m => validateAttributeValue s m q.2 a)
                (fun m => (validatorStepMono s m).2.2.2.2.2.2.2.2.1 q.2 a) hr1 hr2
              subst hr12
              simp [attrEntryErrors, hfind, hr1, hr2]
          have hflat : (na.flatMap (attrEntryErrors s g1 sa)).Perm
              (na2.flatMap (attrEntryErrors s g2 sa)) := by
            rw [flatMapCongrMem na (attrEntryErrors s g1 sa) (attrEntryErrors s g2 sa) hent]
            exact hp.flatMap_right _
          have hmiss : (requiredAttrNames sa).filter
                (fun n => !(na.any (fun p => p.1 == n))) =
              (requiredAttrNames sa).filter
                (fun n => !(na2.any (fun p => p.1 == n))) := by
            apply List.filter_congr
            intro n _
            rw [permAnyEq hp]
          rw [← Res.ok.inj h1, ← Res.ok.inj h2, hbase1, hbase2, hmiss]
          exact hflat.append_right _

/-- C8 counterexample: the two orders in which Go may iterate the same
two-entry attribute map yield the same error strings in DIFFERENT order, so
the `ValidationResult` contents are not identical across runs. -/
theorem c8_counterexample :
    ((XMLNode.mk "e" "" [("a", "1"), ("b", "2")] "" []).Attributes).Perm
      ((XMLNode.mk "e" "" [("b", "2"), ("a", "1")] "" []).Attributes)
    ∧ Validate c8Schema 5 (.ok (XMLNode.mk "e" "" [("a", "1"), ("b", "2")] "" [])) =
        .ok (.ok { Valid := false, Filename := "e",
                   Errors := ["unexpected attribute \x27a\x27",
                              "unexpected attribute \x27b\x27"] })
    ∧ Validate c8Schema 5 (.ok (XMLNode.mk "e" "" [("b", "2"), ("a", "1")] "" [])) =
        .ok (.ok { Valid := false, Filename := "e",
                   Errors := ["unexpected attribute \x27b\x27",
                              "unexpected attribute \x27a\x27"] }) :=
  ⟨by decide, by decide, by decide⟩

/-- C8 (corrected): the walk itself is deterministic — any two delivered
results of `Validate` on the same parse agree exactly, whatever the fuel —
but a Go attribute MAP admits several iteration orders (modelled here as
permuted association lists), and these permute the per-attribute error
blocks of `validateAttributes`; so two runs yield the same error multiset
but not necessarily the same order. -/
theorem c8_determinism (s : XSDSchema) :
    (∀ (p : Except String XMLNode) (f1 f2 : Nat)
        (r1 r2 : Except String ValidationResult),
        Validate s f1 p = .ok r1 → Validate s f2 p = .ok r2 → r1 = r2)
    ∧ (∀ (na na2 : List (String × String)) (sa : List XSDAttribute)
        (f1 f2 : Nat) (errs1 errs2 : List String), na.Perm na2 →
        validateAttributes s f1 na sa = .ok errs1 →
        validateAttributes s f2 na2 sa = .ok errs2 →
        errs1.Perm errs2) := by
  constructor
  · intro p f1 f2 r1 r2 h1 h2
    exact resComputesUnique (fun m => Validate s m p)
      (fun m => validateStep s p m) h1 h2
  · exact fun na na2 sa f1 f2 errs1 errs2 hp h1 h2 =>
      validateAttributesPerm s na na2 sa f1 f2 errs1 errs2 hp h1 h2

/-- C8 witness: cross-fuel agreement of `Validate` on a concrete document,
and the permutation of the attribute errors under the two iteration orders
of a two-entry map. -/
theorem c8_determinism_witness :
    ((Except.ok { Valid := false, Filename := "e",
                  Errors := ["unexpected attribute \x27a\x27",
                             "unexpected attribute \x27b\x27"] } :
          Except String ValidationResult) =
      .ok { Valid := false, Filename := "e",
            Errors := ["unexpected attribute \x27a\x27",
                       "unexpected attribute \x27b\x27"] })
    ∧ (["unexpected attribute \x27a\x27", "unexpected attribute \x27b\x27"] : List String).Perm
        ["unexpected attribute \x27b\x27", "unexpected attribute \x27a\x27"] := by
  constructor
  · exact (c8_determinism c8Schema).1
      (.ok (XMLNode.mk "e" "" [("a", "1"), ("b", "2")] "" [])) 5 6 _ _
      (by decide) (by decide)
  · exact (c8_determinism c8Schema).2
      [("a", "1"), ("b", "2")] [("b", "2"), ("a", "1")] [] 4 4 _ _
      (by decide) (by decide) (by decide)

end GoXsd
